import Mathlib

/-!
Shallow embedding of the disorderBook matching engine (disorderBook.c).

Conventions of the embedding:
* C `int` values (quantities, prices, directions, order types, error codes,
  account ids) are modelled as `Int`; the engine's own arithmetic never
  overflows 32 bits except where the source clamps explicitly
  (`update_account`), and those clamps are reproduced verbatim.
* Pointers to `ORDER` structs are modelled as indices into `Engine.orders`.
  The C allocator `next_id` hands out consecutive ids starting at 0 and
  every allocation stores the order at `AllOrders[id]`, so the id counter
  always equals the number of stored orders; the model therefore uses
  `Engine.orders.length` as the next id.
* The book is the pair of level lists (`bids` descending, `asks` ascending
  in the reachable states); each level holds its price and the FIFO list of
  order indices, mirroring the doubly linked `LEVEL`/`ORDERNODE` chains.
* `new_timestamp` is modelled as a monotone counter `Engine.time`
  (the C code fakes microseconds with a call counter to make timestamps
  strictly increasing, so a counter is an order-faithful model).
* Writing to stderr (ticker and execution messages) is modelled by the
  counters `Engine.tickers` and `Engine.executions`.
-/

def BUY : Int := 1
def SELL : Int := 2

def LIMIT : Int := 1
def MARKET : Int := 2
def FOK : Int := 3
def IOC : Int := 4

def MAXORDERS : Nat := 2000000000
def MAXACCOUNTS : Int := 5000

def TOO_MANY_ORDERS : Int := 1
def SILLY_VALUE : Int := 2
def TOO_HIGH_ACCOUNT : Int := 3

structure Fill where
  price : Int
  qty : Int
  ts : Nat
deriving Repr, DecidableEq

structure Account where
  name : String
  orderIds : List Nat
  posmin : Int
  posmax : Int
  shares : Int
  cents : Int
deriving Repr, DecidableEq

structure Order where
  direction : Int
  originalQty : Int
  qty : Int
  price : Int
  orderType : Int
  id : Nat
  accountId : Int
  ts : Nat
  fills : List Fill
  totalFilled : Int
  isOpen : Bool
deriving Repr, DecidableEq

structure Level where
  price : Int
  orderIds : List Nat
deriving Repr, DecidableEq

structure Quote where
  bidSize : Int
  askSize : Int
  bidDepth : Int
  askDepth : Int
  bid : Int
  ask : Int
  last : Int
  lastSize : Int
  lastTrade : Option Nat
  quoteTime : Nat
deriving Repr, DecidableEq

structure Engine where
  bids : List Level
  asks : List Level
  orders : List Order
  accounts : List (Int × Account)
  quote : Quote
  time : Nat
  tickers : Nat
  executions : Nat
deriving Repr, DecidableEq

def defaultOrder : Order :=
  { direction := 0, originalQty := 0, qty := 0, price := 0, orderType := 0,
    id := 0, accountId := 0, ts := 0, fills := [], totalFilled := 0, isOpen := false }

def defaultAccount : Account :=
  { name := "", orderIds := [], posmin := 0, posmax := 0, shares := 0, cents := 0 }

def ordGet (orders : List Order) (id : Nat) : Order :=
  orders.getD id defaultOrder

def Engine.getOrder (eng : Engine) (id : Nat) : Order :=
  ordGet eng.orders id

def Engine.setOrder (eng : Engine) (id : Nat) (o : Order) : Engine :=
  { eng with orders := eng.orders.set id o }

def accGet (accounts : List (Int × Account)) (aid : Int) : Account :=
  match accounts.find? (fun p => p.1 = aid) with
  | some p => p.2
  | none => defaultAccount

def accSet (accounts : List (Int × Account)) (aid : Int) (a : Account) : List (Int × Account) :=
  accounts.map (fun p => if p.1 = aid then (aid, a) else p)

/-- Model of `new_timestamp`: read the clock, then advance it. -/
def Engine.bumpTime (eng : Engine) : Engine :=
  { eng with time := eng.time + 1 }

/-- Model of `init_account`. -/
def init_account (name : String) : Account :=
  { name := name, orderIds := [], posmin := 0, posmax := 0, shares := 0, cents := 0 }

/-- Model of `account_lookup_or_create`: create the account on first touch,
keeping the first-touch name forever. -/
def account_lookup_or_create (eng : Engine) (name : String) (aid : Int) : Engine :=
  if (eng.accounts.find? (fun p => p.1 = aid)).isSome then eng
  else { eng with accounts := eng.accounts ++ [(aid, init_account name)] }

/-- Model of `add_order_to_account`. -/
def add_order_to_account (eng : Engine) (aid : Int) (oid : Nat) : Engine :=
  let a := accGet eng.accounts aid
  { eng with accounts := accSet eng.accounts aid { a with orderIds := a.orderIds ++ [oid] } }

/-- Model of `update_account` (disorderBook.c:436-496): the 64-bit temporary
is exact `Int` arithmetic here; each branch clamps exactly the bound the C
code checks before the final 32-bit store. -/
def update_account (a : Account) (quantity price direction : Int) : Account :=
  let shares :=
    if direction = BUY then
      let t := a.shares + quantity
      if t > 2147483647 then 2147483647 else t
    else
      let t := a.shares - quantity
      if t < -2147483647 then -2147483647 else t
  let cents :=
    if direction = BUY then
      let t := a.cents - price * quantity
      if t < -2147483647 then -2147483647 else t
    else
      let t := a.cents + price * quantity
      if t > 2147483647 then 2147483647 else t
  let posmin := if shares < a.posmin then shares else a.posmin
  let posmax := if shares > a.posmax then shares else a.posmax
  { a with shares := shares, cents := cents, posmin := posmin, posmax := posmax }

/-- Model of `get_size_from_level`: total quantity resting at one level. -/
def get_size_from_level (orders : List Order) : Option Level → Int
  | none => 0
  | some lvl => (lvl.orderIds.map (fun id => (ordGet orders id).qty)).sum

/-- Model of `get_depth`: total quantity over a chain of levels. -/
def get_depth (orders : List Order) (levels : List Level) : Int :=
  (levels.map (fun lvl => get_size_from_level orders (some lvl))).sum

/-- Model of `remake_most_of_quote`: rebuild the book-determined quote
fields, leaving the last-trade fields untouched. -/
def remake_most_of_quote (eng : Engine) : Engine :=
  let ts := eng.time
  let eng := eng.bumpTime
  { eng with quote :=
    { eng.quote with
      bidSize := get_size_from_level eng.orders eng.bids.head?,
      bidDepth := get_depth eng.orders eng.bids,
      askSize := get_size_from_level eng.orders eng.asks.head?,
      askDepth := get_depth eng.orders eng.asks,
      bid := match eng.bids.head? with | some lvl => lvl.price | none => -1,
      ask := match eng.asks.head? with | some lvl => lvl.price | none => -1,
      quoteTime := ts } }

/-- Model of `set_quote_lastinfo`. -/
def set_quote_lastinfo (eng : Engine) (last lastSize : Int) : Engine :=
  let ts := eng.time
  let eng := eng.bumpTime
  { eng with quote := { eng.quote with last := last, lastSize := lastSize, lastTrade := some ts } }

/-- Model of `create_ticker_message`. -/
def create_ticker_message (eng : Engine) : Engine :=
  { eng with tickers := eng.tickers + 1 }

/-- Shared shape of the two per-order update blocks inside `cross`
(disorderBook.c:732-770): decrement `qty`, increment `totalFilled`,
append the fill, and close the order if its `qty` reached 0. -/
def fill_order_fields (o : Order) (quantity price : Int) (ts : Nat) : Order :=
  let o1 := { o with qty := o.qty - quantity,
                     totalFilled := o.totalFilled + quantity,
                     fills := o.fills ++ [⟨price, quantity, ts⟩] }
  if o1.qty = 0 then { o1 with isOpen := false } else o1

/-- Ledger side of `cross` (disorderBook.c:774-784): skipped entirely when
the two account names match, otherwise the buyer's and the seller's accounts
are updated in the source's order (standing first). -/
def cross_accounts (accounts : List (Int × Account)) (standing incoming : Order)
    (quantity price : Int) : List (Int × Account) :=
  if (accGet accounts standing.accountId).name ≠ (accGet accounts incoming.accountId).name then
    if standing.direction = BUY then
      let accs := accSet accounts standing.accountId
        (update_account (accGet accounts standing.accountId) quantity price BUY)
      accSet accs incoming.accountId
        (update_account (accGet accs incoming.accountId) quantity price SELL)
    else
      let accs := accSet accounts standing.accountId
        (update_account (accGet accounts standing.accountId) quantity price SELL)
      accSet accs incoming.accountId
        (update_account (accGet accs incoming.accountId) quantity price BUY)
  else accounts

/-- Model of `cross` (disorderBook.c:715-792): one match between a standing
and an incoming order. -/
def cross (eng0 : Engine) (standingId incomingId : Nat) : Engine :=
  let ts := eng0.time
  let eng := eng0.bumpTime
  let standing := eng.getOrder standingId
  let incoming := eng.getOrder incomingId
  let quantity := if standing.qty < incoming.qty then standing.qty else incoming.qty
  let price := standing.price
  let eng := (eng.setOrder standingId (fill_order_fields standing quantity price ts)).setOrder
    incomingId (fill_order_fields incoming quantity price ts)
  let eng := { eng with accounts := cross_accounts eng.accounts standing incoming quantity price }
  let eng := set_quote_lastinfo eng price quantity
  { eng with executions := eng.executions + 2 }

/-- Model of the inner node loop of `run_order`: cross against each node of
one level in FIFO order; the returned flag is true when the incoming order
closed and the whole walk must stop. -/
def run_level (eng : Engine) (incomingId : Nat) : List Nat → Engine × Bool
  | [] => (eng, false)
  | sid :: rest =>
    let eng1 := cross eng sid incomingId
    if (eng1.getOrder incomingId).isOpen = false then (eng1, true)
    else run_level eng1 incomingId rest

/-- Model of the level loop of `run_order`: `sellSide = true` means the
incoming order is a sell walking the bid levels (price gate `price < limit`),
otherwise it walks the ask levels (price gate `price > limit`); MARKET
incoming orders ignore the gate. -/
def run_levels (eng : Engine) (incomingId : Nat) (sellSide : Bool) : List Level → Engine
  | [] => eng
  | lvl :: rest =>
    let o := eng.getOrder incomingId
    if (if sellSide then lvl.price < o.price else lvl.price > o.price) ∧ o.orderType ≠ MARKET then eng
    else
      match run_level eng incomingId lvl.orderIds with
      | (eng1, true) => eng1
      | (eng1, false) => run_levels eng1 incomingId sellSide rest

/-- Model of `run_order` (disorderBook.c:795-826). -/
def run_order (eng : Engine) (incomingId : Nat) : Engine :=
  if (eng.getOrder incomingId).direction = SELL then
    run_levels eng incomingId true eng.bids
  else
    run_levels eng incomingId false eng.asks

/-- Model of `cleanup_closed_bids_or_asks`: drop the head run of closed
orders and any level this empties, stopping at the first open order. -/
def cleanup_closed (orders : List Order) : List Level → List Level
  | [] => []
  | lvl :: rest =>
    match lvl.orderIds.dropWhile (fun id => (ordGet orders id).isOpen = false) with
    | [] => cleanup_closed orders rest
    | ids => { lvl with orderIds := ids } :: rest

/-- Model of the inner node loop shared by `fok_can_buy` and `fok_can_sell`:
subtract each resting `qty`; `none` means the running quantity reached ≤ 0
(the order is feasible), `some q` is the remaining quantity. -/
def fok_ids (orders : List Order) (qty : Int) : List Nat → Option Int
  | [] => some qty
  | id :: rest =>
    let q := qty - (ordGet orders id).qty
    if q ≤ 0 then none else fok_ids orders q rest

/-- Model of `fok_can_buy` (disorderBook.c:1023-1040). -/
def fok_can_buy (orders : List Order) (qty price : Int) : List Level → Bool
  | [] => false
  | lvl :: rest =>
    if lvl.price ≤ price then
      match fok_ids orders qty lvl.orderIds with
      | none => true
      | some q => fok_can_buy orders q price rest
    else false

/-- Model of `fok_can_sell` (disorderBook.c:1043-1060). -/
def fok_can_sell (orders : List Order) (qty price : Int) : List Level → Bool
  | [] => false
  | lvl :: rest =>
    if lvl.price ≥ price then
      match fok_ids orders qty lvl.orderIds with
      | none => true
      | some q => fok_can_sell orders q price rest
    else false

/-- Sorted-insert of an order id into the ask level chain (ascending),
modelling `insert_ask`'s while loop. -/
def insert_level_asks (price : Int) (id : Nat) : List Level → List Level
  | [] => [{ price := price, orderIds := [id] }]
  | lvl :: rest =>
    if price < lvl.price then { price := price, orderIds := [id] } :: lvl :: rest
    else if price = lvl.price then { lvl with orderIds := lvl.orderIds ++ [id] } :: rest
    else lvl :: insert_level_asks price id rest

/-- Sorted-insert of an order id into the bid level chain (descending),
modelling `insert_bid`'s while loop. -/
def insert_level_bids (price : Int) (id : Nat) : List Level → List Level
  | [] => [{ price := price, orderIds := [id] }]
  | lvl :: rest =>
    if price > lvl.price then { price := price, orderIds := [id] } :: lvl :: rest
    else if price = lvl.price then { lvl with orderIds := lvl.orderIds ++ [id] } :: rest
    else lvl :: insert_level_bids price id rest

/-- Model of `insert_ask`. -/
def insert_ask (eng : Engine) (id : Nat) : Engine :=
  { eng with asks := insert_level_asks (eng.getOrder id).price id eng.asks }

/-- Model of `insert_bid`. -/
def insert_bid (eng : Engine) (id : Nat) : Engine :=
  { eng with bids := insert_level_bids (eng.getOrder id).price id eng.bids }

structure OandE where
  orderId : Option Nat
  error : Int
deriving Repr, DecidableEq

/-- Stage of `execute_order` that runs the matcher, guarded for FOK orders
by the feasibility pre-check (disorderBook.c:1185-1201). -/
def fok_gate (eng : Engine) (id : Nat) : Engine :=
  let o := eng.getOrder id
  if o.orderType ≠ FOK then run_order eng id
  else if o.direction = BUY then
    (if fok_can_buy eng.orders o.qty o.price eng.asks then run_order eng id else eng)
  else
    (if fok_can_sell eng.orders o.qty o.price eng.bids then run_order eng id else eng)

/-- Stage of `execute_order` that removes closed orders from the head of the
opposite side (disorderBook.c:1205-1210). -/
def cleanup_phase (eng : Engine) (id : Nat) : Engine :=
  if (eng.getOrder id).direction = SELL then
    { eng with bids := cleanup_closed eng.orders eng.bids }
  else
    { eng with asks := cleanup_closed eng.orders eng.asks }

/-- Stage of `execute_order` that rewrites a MARKET order's stored price to 0
(disorderBook.c:1215). -/
def market_price_phase (eng : Engine) (id : Nat) : Engine :=
  if (eng.getOrder id).orderType = MARKET then
    eng.setOrder id { eng.getOrder id with price := 0 }
  else eng

/-- Stage of `execute_order` that rests an open LIMIT remainder on the book
and closes the open remainder of every other order type
(disorderBook.c:1219-1233). -/
def rest_or_close_phase (eng : Engine) (id : Nat) : Engine :=
  if (eng.getOrder id).isOpen = true then
    if (eng.getOrder id).orderType = LIMIT then
      (if (eng.getOrder id).direction = SELL then insert_ask eng id else insert_bid eng id)
    else eng.setOrder id { eng.getOrder id with isOpen := false, qty := 0 }
  else eng

/-- Stage of `execute_order` that refreshes the quote and emits a ticker when
the book changed (disorderBook.c:1241-1245). -/
def ticker_phase (eng : Engine) (id : Nat) : Engine :=
  if (eng.getOrder id).totalFilled ≠ 0 ∨ (eng.getOrder id).orderType = LIMIT then
    create_ticker_message (remake_most_of_quote eng)
  else eng

/-- The order record `init_order` builds for the next id (disorderBook.c:374-394),
given the engine state at allocation time. -/
def new_order (eng : Engine) (account_int qty price direction orderType : Int) : Order :=
  { direction := direction, originalQty := qty, qty := qty, price := price,
    orderType := orderType, id := eng.orders.length, accountId := account_int, ts := eng.time,
    fills := [], totalFilled := 0, isOpen := true }

/-- Account resolution, id allocation and order construction steps of
`execute_order` (disorderBook.c:1175-1181). -/
def placed_engine (eng : Engine) (account_name : String)
    (account_int qty price direction orderType : Int) : Engine :=
  let eng1 := account_lookup_or_create eng account_name account_int
  let order := new_order eng1 account_int qty price direction orderType
  let eng2 := { eng1 with orders := eng1.orders ++ [order], time := eng1.time + 1 }
  add_order_to_account eng2 account_int order.id

/-- Model of `execute_order` (disorderBook.c:1141-1249): validation in source
order, then account resolution, order construction, the FOK-guarded matcher
run, opposite-side cleanup, MARKET price rewrite, rest-or-close, and the
conditional quote refresh plus ticker. -/
def execute_order (eng : Engine) (account_name : String)
    (account_int qty price direction orderType : Int) : Engine × OandE :=
  if eng.orders.length ≥ MAXORDERS then (eng, ⟨none, TOO_MANY_ORDERS⟩)
  else if account_int ≥ MAXACCOUNTS then (eng, ⟨none, TOO_HIGH_ACCOUNT⟩)
  else if price < 0 ∨ qty < 1 ∨ (direction ≠ SELL ∧ direction ≠ BUY) then (eng, ⟨none, SILLY_VALUE⟩)
  else
    let id := (account_lookup_or_create eng account_name account_int).orders.length
    let eng3 := placed_engine eng account_name account_int qty price direction orderType
    (ticker_phase (rest_or_close_phase (market_price_phase (cleanup_phase (fok_gate eng3 id) id) id) id) id,
     ⟨some id, 0⟩)

/-- Model of the string `print_order` reports for the `orderType` field
(disorderBook.c:596-611). -/
def orderTypeString (t : Int) : String :=
  if t = LIMIT then "limit"
  else if t = MARKET then "market"
  else if t = IOC then "immediate-or-cancel"
  else if t = FOK then "fill-or-kill"
  else "unknown"

/-- Model of `find_level` restricted to the bid chain (`dir == BUY`). -/
def find_level_buy (price : Int) : List Level → Option Level
  | [] => none
  | lvl :: rest =>
    if lvl.price > price then find_level_buy price rest
    else if lvl.price = price then some lvl
    else none

/-- Model of `find_level` restricted to the ask chain. -/
def find_level_sell (price : Int) : List Level → Option Level
  | [] => none
  | lvl :: rest =>
    if lvl.price < price then find_level_sell price rest
    else if lvl.price = price then some lvl
    else none

/-- Model of `find_level` (disorderBook.c:1252-1288). -/
def find_level (eng : Engine) (price dir : Int) : Option Level :=
  if dir = BUY then find_level_buy price eng.bids else find_level_sell price eng.asks

/-- Effect of `cleanup_after_cancel` on the level chain: remove the node of
the cancelled order from the (unique) level at its price, dropping the level
if this empties it. -/
def remove_id_from_levels (price : Int) (id : Nat) : List Level → List Level
  | [] => []
  | lvl :: rest =>
    if lvl.price = price then
      match lvl.orderIds.erase id with
      | [] => rest
      | ids => { lvl with orderIds := ids } :: rest
    else lvl :: remove_id_from_levels price id rest

/-- Model of `cancel_order_by_id` (disorderBook.c:1448-1484). -/
def cancel_order_by_id (eng : Engine) (id : Nat) : Engine :=
  let o := eng.getOrder id
  if o.orderType ≠ LIMIT then eng
  else
    match find_level eng o.price o.direction with
    | none => eng
    | some lvl =>
      if id ∈ lvl.orderIds then
        let eng := eng.setOrder id { o with isOpen := false, qty := 0 }
        let eng :=
          if o.direction = BUY then { eng with bids := remove_id_from_levels o.price id eng.bids }
          else { eng with asks := remove_id_from_levels o.price id eng.asks }
        create_ticker_message (remake_most_of_quote eng)
      else eng

def initialQuote : Quote :=
  { bidSize := 0, askSize := 0, bidDepth := 0, askDepth := 0,
    bid := -1, ask := -1, last := -1, lastSize := -1, lastTrade := none, quoteTime := 0 }

/-- Engine state at process start (globals of disorderBook.c after `main`'s
prologue; the start-of-process timestamp is clock value 0). -/
def emptyEngine : Engine :=
  { bids := [], asks := [], orders := [], accounts := [],
    quote := initialQuote, time := 1, tickers := 0, executions := 0 }

/-!
Specification-side definitions. These follow the wording of the spec
(price-time priority walk, ledger clamp, invariants); the theorems below
relate them to the code-side definitions above.
-/

/-- Concatenation of the FIFO queues of a chain of levels, best level
first, FIFO order within each level. -/
def levelIds : List Level → List Nat
  | [] => []
  | lvl :: rest => lvl.orderIds ++ levelIds rest

/-- Spec wording of the matcher's price admissibility: the walk covers the
maximal prefix of levels whose price does not cross the incoming limit; a
MARKET incoming ignores the gate. `sellSide = true` means the incoming
order sells into the bid chain. -/
def specAdmissible (sellSide : Bool) (o : Order) (levels : List Level) : List Level :=
  levels.takeWhile (fun lvl =>
    !(decide ((if sellSide then lvl.price < o.price else lvl.price > o.price) ∧ o.orderType ≠ MARKET)))

/-- Spec wording of "stop as soon as the incoming is closed": keep visiting
standing orders while the running incoming quantity is still positive,
decreasing it by each visited standing order's quantity. `ms` is the order
store the quantities are read from. -/
def truncateByQty (ms : List Order) (q : Int) : List Nat → List Nat
  | [] => []
  | i :: r => if q ≤ 0 then [] else i :: truncateByQty ms (q - (ordGet ms i).qty) r

/-- Running quantity left after the walk of `truncateByQty`. -/
def remainingQty (ms : List Order) (q : Int) : List Nat → Int
  | [] => q
  | i :: r => if q ≤ 0 then q else remainingQty ms (q - (ordGet ms i).qty) r

/-- Folding `cross` over an explicit visit sequence of standing orders. -/
def crossFold (eng : Engine) (incomingId : Nat) (ids : List Nat) : Engine :=
  ids.foldl (fun e sid => cross e sid incomingId) eng

/-- The visit sequence the spec prescribes for an incoming order: the
opposite side's levels from best outward up to the price gate, FIFO within
each level, truncated when the incoming closes. -/
def visitSequence (eng : Engine) (iid : Nat) : List Nat :=
  let o := eng.getOrder iid
  let side := if o.direction = SELL then eng.bids else eng.asks
  truncateByQty eng.orders o.qty (levelIds (specAdmissible (decide (o.direction = SELL)) o side))

/-- Well-formedness of the two books: no order id is queued twice, every
queued id denotes a stored order, and no stored order has negative
remaining quantity. All reachable engine states satisfy this. -/
def books_wf (eng : Engine) : Prop :=
  (levelIds eng.bids).Nodup ∧ (levelIds eng.asks).Nodup ∧
  (∀ j ∈ levelIds eng.bids, j < eng.orders.length) ∧
  (∀ j ∈ levelIds eng.asks, j < eng.orders.length) ∧
  (∀ o ∈ eng.orders, 0 ≤ o.qty)

instance (eng : Engine) : Decidable (books_wf eng) := by
  unfold books_wf; infer_instance

/-- Spec wording of the 32-bit saturation: clamp to
[-2_147_483_647, 2_147_483_647]. -/
def ledgerClamp (x : Int) : Int := max (-2147483647) (min 2147483647 x)

/-- Spec-side restatement of the ledger update, following the claim's
wording: shares move by `qty` (up on Buy, down on Sell) then are clamped;
cents move by the exact product `price*qty` (up on Sell, down on Buy) then
are clamped; `posmin`/`posmax` are updated from the clamped shares. -/
def ledger_update_spec (a : Account) (qty price dir : Int) : Account :=
  let shares := ledgerClamp (if dir = BUY then a.shares + qty else a.shares - qty)
  let cents := ledgerClamp (if dir = BUY then a.cents - price * qty else a.cents + price * qty)
  { a with shares := shares, cents := cents,
           posmin := min a.posmin shares, posmax := max a.posmax shares }

/-- Per-order accounting invariant: quantities are nonnegative, no order
fills beyond its original quantity, and an open order has lost exactly the
quantity it filled (closed orders may have had a positive remainder
discarded). -/
def order_inv (o : Order) : Prop :=
  0 ≤ o.qty ∧ 0 ≤ o.totalFilled ∧ o.qty + o.totalFilled ≤ o.originalQty ∧
  (o.isOpen = true → o.qty + o.totalFilled = o.originalQty ∧ 1 ≤ o.qty)

instance (o : Order) : Decidable (order_inv o) := by
  unfold order_inv; infer_instance

/-- Engine-wide accounting invariant over every order ever stored. -/
def engine_inv (eng : Engine) : Prop :=
  ∀ o ∈ eng.orders, order_inv o

instance (eng : Engine) : Decidable (engine_inv eng) := by
  unfold engine_inv; infer_instance

/-- The invariant exactly as the spec claims it, for every order ever
created: the remaining and filled quantities always add up to the original
quantity. (The code breaks this on the discard paths, which zero `qty`
without touching `totalFilled`; `order_inv` above is the amended form.) -/
def claimed_qty_inv (eng : Engine) : Prop :=
  ∀ o ∈ eng.orders, o.qty + o.totalFilled = o.originalQty

instance (eng : Engine) : Decidable (claimed_qty_inv eng) := by
  unfold claimed_qty_inv; infer_instance

/-- Resting test used by the cancel path: the order is a LIMIT order and its
node is found on the book via its price and side, exactly the lookup
`cancel_order_by_id` performs. -/
def is_resting (eng : Engine) (id : Nat) : Bool :=
  decide ((eng.getOrder id).orderType = LIMIT) &&
  match find_level eng (eng.getOrder id).price (eng.getOrder id).direction with
  | some lvl => decide (id ∈ lvl.orderIds)
  | none => false

/-- Quantity exchanged by a cross: the minimum of the two remaining
quantities, written with the source's comparison. -/
def crossQty (eng : Engine) (standingId incomingId : Nat) : Int :=
  if (eng.getOrder standingId).qty < (eng.getOrder incomingId).qty
  then (eng.getOrder standingId).qty else (eng.getOrder incomingId).qty

/-- Postcondition of a single cross stated by claim C2: both quantities drop
by `min`, both totals rise by `min`, one identical fill record carrying the
standing order's price is appended to both orders, and an order is closed
exactly when its quantity reaches 0. -/
def cross_post (eng : Engine) (sid iid : Nat) : Prop :=
  let s := eng.getOrder sid
  let i := eng.getOrder iid
  let q := min s.qty i.qty
  let eng' := cross eng sid iid
  let s' := eng'.getOrder sid
  let i' := eng'.getOrder iid
  s'.qty = s.qty - q ∧ i'.qty = i.qty - q ∧
  s'.totalFilled = s.totalFilled + q ∧ i'.totalFilled = i.totalFilled + q ∧
  s'.fills = s.fills ++ [⟨s.price, q, eng.time⟩] ∧
  i'.fills = i.fills ++ [⟨s.price, q, eng.time⟩] ∧
  (s'.qty = 0 → s'.isOpen = false) ∧ (i'.qty = 0 → i'.isOpen = false) ∧
  (s'.qty ≠ 0 → s'.isOpen = s.isOpen) ∧ (i'.qty ≠ 0 → i'.isOpen = i.isOpen)

/-- Postcondition of a self-trade cross stated by claim C6: the accounts
are untouched while the fill is recorded on both orders and the quote's
last-trade fields are updated. -/
def self_trade_post (eng : Engine) (sid iid : Nat) : Prop :=
  let s := eng.getOrder sid
  let i := eng.getOrder iid
  let q := min s.qty i.qty
  let eng' := cross eng sid iid
  eng'.accounts = eng.accounts ∧
  (eng'.getOrder sid).fills = s.fills ++ [⟨s.price, q, eng.time⟩] ∧
  (eng'.getOrder iid).fills = i.fills ++ [⟨s.price, q, eng.time⟩] ∧
  eng'.quote.last = s.price ∧
  eng'.quote.lastSize = q ∧
  eng'.quote.lastTrade = some (eng.time + 1)

/-- Postcondition stated by claim C3 for an infeasible FOK order: the ORDER
command is accepted, produces zero fills, closes the order, and emits no
ticker (quote unchanged). -/
def fok_infeasible_post (eng : Engine) (name : String) (ai q p d : Int) : Prop :=
  let r := execute_order eng name ai q p d FOK
  let o := r.1.getOrder eng.orders.length
  r.2.error = 0 ∧ o.fills = [] ∧ o.totalFilled = 0 ∧ o.isOpen = false ∧ o.qty = 0 ∧
  r.1.tickers = eng.tickers ∧ r.1.quote = eng.quote

/-- Postcondition stated by claim C9: an accepted FOK order never partially
fills — it ends closed with zero remaining quantity, its total fill is
either everything or nothing, and it never rests on either book side. -/
def fok_all_or_nothing_post (eng : Engine) (name : String) (ai q p d : Int) : Prop :=
  let r := execute_order eng name ai q p d FOK
  let o := r.1.getOrder eng.orders.length
  r.2.error = 0 ∧ o.isOpen = false ∧ o.qty = 0 ∧
  (o.totalFilled = o.originalQty ∨ o.totalFilled = 0) ∧
  eng.orders.length ∉ levelIds r.1.bids ∧ eng.orders.length ∉ levelIds r.1.asks

/-- Postcondition stated by claim C10 for an order whose type code is
outside {1,2,3,4}: it is accepted, never rests (closed with `qty = 0`), and
its record reports the order type as "unknown". -/
def unknown_type_post (eng : Engine) (name : String) (ai q p d t : Int) : Prop :=
  let r := execute_order eng name ai q p d t
  let o := r.1.getOrder eng.orders.length
  r.2.error = 0 ∧ o.isOpen = false ∧ o.qty = 0 ∧
  orderTypeString o.orderType = "unknown" ∧
  eng.orders.length ∉ levelIds r.1.bids ∧ eng.orders.length ∉ levelIds r.1.asks

/-!
Concrete states used by the witness theorems.
-/

/-- Account record used by witness states. -/
def accWitness (nm : String) : Account :=
  { name := nm, orderIds := [0], posmin := 0, posmax := 0, shares := 0, cents := 0 }

/-- A standing limit buy, resting at 5000. -/
def ordStandingW : Order :=
  { direction := 1, originalQty := 100, qty := 100, price := 5000, orderType := 1,
    id := 0, accountId := 0, ts := 1, fills := [], totalFilled := 0, isOpen := true }

/-- An incoming limit sell for 60 at 5000. -/
def ordIncomingW : Order :=
  { direction := 2, originalQty := 60, qty := 60, price := 5000, orderType := 1,
    id := 1, accountId := 1, ts := 2, fills := [], totalFilled := 0, isOpen := true }

/-- Witness engine: order 0 resting on the bid book, order 1 about to cross
it, owned by two different accounts. -/
def engCrossW : Engine :=
  { bids := [{ price := 5000, orderIds := [0] }], asks := [],
    orders := [ordStandingW, ordIncomingW],
    accounts := [(0, accWitness "A"), (1, accWitness "B")],
    quote := initialQuote, time := 3, tickers := 0, executions := 0 }

/-- Witness engine for the self-trade rule: same book as `engCrossW` but
both orders belong to accounts with the same name. -/
def engSelfW : Engine :=
  { engCrossW with accounts := [(0, accWitness "A"), (1, accWitness "A")] }

/-- Witness engine for the matcher walk: two ask levels and an incoming
limit buy (order 2) for 60 at 5050, so only the 5000 level is admissible. -/
def engRunW : Engine :=
  { bids := [], asks := [{ price := 5000, orderIds := [0] }, { price := 5100, orderIds := [1] }],
    orders :=
      [{ direction := 2, originalQty := 50, qty := 50, price := 5000, orderType := 1,
         id := 0, accountId := 0, ts := 1, fills := [], totalFilled := 0, isOpen := true },
       { direction := 2, originalQty := 50, qty := 50, price := 5100, orderType := 1,
         id := 1, accountId := 0, ts := 2, fills := [], totalFilled := 0, isOpen := true },
       { direction := 1, originalQty := 60, qty := 60, price := 5050, orderType := 1,
         id := 2, accountId := 1, ts := 3, fills := [], totalFilled := 0, isOpen := true }],
    accounts := [(0, accWitness "A"), (1, accWitness "B")],
    quote := initialQuote, time := 4, tickers := 0, executions := 0 }

/-!
Theorems. First the helper lemmas about the order store and `cross`, then
the claim theorems.
-/

theorem if_lt_eq_min (a b : Int) : (if a < b then a else b) = min a b := by
  rcases le_or_lt b a with h | h
  · rw [min_eq_right h]
    by_cases h2 : a < b
    · omega
    · simp [h2]
  · rw [if_pos h, min_eq_left (le_of_lt h)]

theorem ordGet_nil (id : Nat) : ordGet [] id = defaultOrder := by
  cases id <;> rfl

theorem ordGet_set_other (orders : List Order) (i j : Nat) (o : Order) (h : j ≠ i) :
    ordGet (orders.set i o) j = ordGet orders j := by
  induction orders generalizing i j with
  | nil => rfl
  | cons a l ih =>
    cases i with
    | zero =>
      cases j with
      | zero => exact absurd rfl h
      | succ j => rfl
    | succ i =>
      cases j with
      | zero => rfl
      | succ j => exact ih i j (by omega)

theorem ordGet_set_self (orders : List Order) (i : Nat) (o : Order) (h : i < orders.length) :
    ordGet (orders.set i o) i = o := by
  induction orders generalizing i with
  | nil => simp at h
  | cons a l ih =>
    cases i with
    | zero => rfl
    | succ i => exact ih i (by simpa using h)

theorem ordGet_append_lt (orders os : List Order) (id : Nat) (h : id < orders.length) :
    ordGet (orders ++ os) id = ordGet orders id := by
  induction orders generalizing id with
  | nil => simp at h
  | cons a l ih =>
    cases id with
    | zero => rfl
    | succ id => exact ih id (by simpa using h)

theorem ordGet_append_self (orders : List Order) (o : Order) :
    ordGet (orders ++ [o]) orders.length = o := by
  induction orders with
  | nil => rfl
  | cons a l ih => exact ih

theorem ordGet_append_gt (orders : List Order) (o : Order) (id : Nat) (h : orders.length < id) :
    ordGet (orders ++ [o]) id = defaultOrder := by
  induction orders generalizing id with
  | nil =>
    cases id with
    | zero => omega
    | succ id => cases id <;> rfl
  | cons a l ih =>
    cases id with
    | zero => omega
    | succ id => exact ih id (by simpa using h)

theorem fill_qty (o : Order) (q p : Int) (ts : Nat) :
    (fill_order_fields o q p ts).qty = o.qty - q := by
  simp only [fill_order_fields]; split <;> rfl

theorem fill_totalFilled (o : Order) (q p : Int) (ts : Nat) :
    (fill_order_fields o q p ts).totalFilled = o.totalFilled + q := by
  simp only [fill_order_fields]; split <;> rfl

theorem fill_fills (o : Order) (q p : Int) (ts : Nat) :
    (fill_order_fields o q p ts).fills = o.fills ++ [⟨p, q, ts⟩] := by
  simp only [fill_order_fields]; split <;> rfl

theorem fill_price (o : Order) (q p : Int) (ts : Nat) :
    (fill_order_fields o q p ts).price = o.price := by
  simp only [fill_order_fields]; split <;> rfl

theorem fill_orderType (o : Order) (q p : Int) (ts : Nat) :
    (fill_order_fields o q p ts).orderType = o.orderType := by
  simp only [fill_order_fields]; split <;> rfl

theorem fill_direction (o : Order) (q p : Int) (ts : Nat) :
    (fill_order_fields o q p ts).direction = o.direction := by
  simp only [fill_order_fields]; split <;> rfl

theorem fill_originalQty (o : Order) (q p : Int) (ts : Nat) :
    (fill_order_fields o q p ts).originalQty = o.originalQty := by
  simp only [fill_order_fields]; split <;> rfl

theorem fill_accountId (o : Order) (q p : Int) (ts : Nat) :
    (fill_order_fields o q p ts).accountId = o.accountId := by
  simp only [fill_order_fields]; split <;> rfl

theorem fill_isOpen (o : Order) (q p : Int) (ts : Nat) :
    (fill_order_fields o q p ts).isOpen = (if o.qty - q = 0 then false else o.isOpen) := by
  simp only [fill_order_fields]; split <;> simp_all

theorem cross_orders (eng : Engine) (s i : Nat) :
    (cross eng s i).orders =
      (eng.orders.set s (fill_order_fields (eng.getOrder s) (crossQty eng s i)
        (eng.getOrder s).price eng.time)).set i
        (fill_order_fields (eng.getOrder i) (crossQty eng s i)
        (eng.getOrder s).price eng.time) := rfl

theorem cross_bids (eng : Engine) (s i : Nat) : (cross eng s i).bids = eng.bids := rfl

theorem cross_asks (eng : Engine) (s i : Nat) : (cross eng s i).asks = eng.asks := rfl

theorem cross_time (eng : Engine) (s i : Nat) : (cross eng s i).time = eng.time + 2 := rfl

theorem cross_orders_length (eng : Engine) (s i : Nat) :
    (cross eng s i).orders.length = eng.orders.length := by
  rw [cross_orders]; simp

theorem cross_getOrder_other (eng : Engine) (s i j : Nat) (h1 : j ≠ s) (h2 : j ≠ i) :
    (cross eng s i).getOrder j = eng.getOrder j := by
  show ordGet (cross eng s i).orders j = _
  rw [cross_orders, ordGet_set_other _ _ _ _ h2, ordGet_set_other _ _ _ _ h1]
  rfl

theorem cross_getOrder_incoming (eng : Engine) (s i : Nat) (hi : i < eng.orders.length) :
    (cross eng s i).getOrder i =
      fill_order_fields (eng.getOrder i) (crossQty eng s i) (eng.getOrder s).price eng.time := by
  show ordGet (cross eng s i).orders i = _
  rw [cross_orders, ordGet_set_self]
  simpa using hi

theorem cross_getOrder_standing (eng : Engine) (s i : Nat) (hne : s ≠ i)
    (hs : s < eng.orders.length) :
    (cross eng s i).getOrder s =
      fill_order_fields (eng.getOrder s) (crossQty eng s i) (eng.getOrder s).price eng.time := by
  show ordGet (cross eng s i).orders s = _
  rw [cross_orders, ordGet_set_other _ _ _ _ hne, ordGet_set_self _ _ _ hs]

theorem crossQty_eq_min (eng : Engine) (s i : Nat) :
    crossQty eng s i = min (eng.getOrder s).qty (eng.getOrder i).qty := by
  unfold crossQty; exact if_lt_eq_min _ _

theorem ordGet_set_cases (orders : List Order) (idx j : Nat) (o : Order) :
    ordGet (orders.set idx o) j =
      if j = idx ∧ j < orders.length then o else ordGet orders j := by
  induction orders generalizing idx j with
  | nil => simp [ordGet]
  | cons a l ih =>
    cases idx with
    | zero =>
      cases j with
      | zero => rw [if_pos (by simp)]; rfl
      | succ j => rw [if_neg (by simp)]; rfl
    | succ idx =>
      cases j with
      | zero => rw [if_neg (by simp)]; rfl
      | succ j =>
        show ordGet (l.set idx o) j = _
        rw [ih idx j]
        by_cases h : j = idx ∧ j < l.length
        · rw [if_pos h, if_pos (by simp only [List.length_cons]; omega)]
        · rw [if_neg h, if_neg (by simp only [List.length_cons]; omega)]
          rfl

theorem cross_accounts_eq (eng : Engine) (s i : Nat) :
    (cross eng s i).accounts =
      cross_accounts eng.accounts (eng.getOrder s) (eng.getOrder i) (crossQty eng s i)
        (eng.getOrder s).price := rfl

theorem cross_quote (eng : Engine) (s i : Nat) :
    (cross eng s i).quote =
      { eng.quote with last := (eng.getOrder s).price,
                       lastSize := crossQty eng s i,
                       lastTrade := some (eng.time + 1) } := rfl

theorem cross_tickers (eng : Engine) (s i : Nat) : (cross eng s i).tickers = eng.tickers := rfl

theorem cross_executions (eng : Engine) (s i : Nat) :
    (cross eng s i).executions = eng.executions + 2 := rfl

theorem cross_accounts_self (accounts : List (Int × Account)) (standing incoming : Order)
    (q p : Int)
    (h : (accGet accounts standing.accountId).name = (accGet accounts incoming.accountId).name) :
    cross_accounts accounts standing incoming q p = accounts := by
  unfold cross_accounts
  exact if_neg (fun hn => hn h)

theorem cross_qty_nonneg (eng : Engine) (s i : Nat)
    (h : ∀ j, 0 ≤ (eng.getOrder j).qty) : ∀ j, 0 ≤ ((cross eng s i).getOrder j).qty := by
  intro j
  have hle1 : crossQty eng s i ≤ (eng.getOrder s).qty := by
    rw [crossQty_eq_min]; exact min_le_left _ _
  have hle2 : crossQty eng s i ≤ (eng.getOrder i).qty := by
    rw [crossQty_eq_min]; exact min_le_right _ _
  show 0 ≤ (ordGet (cross eng s i).orders j).qty
  rw [cross_orders, ordGet_set_cases, ordGet_set_cases]
  have h1 := h s
  have h2 := h i
  have h3 := h j
  split
  · rw [fill_qty]; omega
  · split
    · rw [fill_qty]; omega
    · exact h3

theorem clamp_add_eq (x y : Int) (h1 : -2147483647 ≤ x) (hy : 0 ≤ y) :
    (if x + y > 2147483647 then 2147483647 else x + y) = ledgerClamp (x + y) := by
  unfold ledgerClamp
  simp only [max_def, min_def]
  split_ifs <;> omega

theorem clamp_sub_eq (x y : Int) (h2 : x ≤ 2147483647) (hy : 0 ≤ y) :
    (if x - y < -2147483647 then -2147483647 else x - y) = ledgerClamp (x - y) := by
  unfold ledgerClamp
  simp only [max_def, min_def]
  split_ifs <;> omega

theorem if_min_comm (s p : Int) : (if s < p then s else p) = min p s := by
  simp only [min_def]; split_ifs <;> omega

theorem if_max_comm (s p : Int) : (if s > p then s else p) = max p s := by
  simp only [max_def]; split_ifs <;> omega

/-- C4: every ledger update moves `shares` by `qty` (up on Buy, down on
Sell) and `cents` by the exact 64-bit product `price*qty` (up on Sell, down
on Buy), clamps both results to [-2_147_483_647, 2_147_483_647], and then
updates `posmin`/`posmax` from the clamped shares; stated as equality of
`update_account` with the clamp-based specification for both directions,
for any in-range account state and nonnegative arguments. -/
theorem claim_C4_ledger_update (a : Account) (qty price : Int)
    (hq : 0 ≤ qty) (hp : 0 ≤ price)
    (hs1 : -2147483647 ≤ a.shares) (hs2 : a.shares ≤ 2147483647)
    (hc1 : -2147483647 ≤ a.cents) (hc2 : a.cents ≤ 2147483647) :
    update_account a qty price BUY = ledger_update_spec a qty price BUY ∧
    update_account a qty price SELL = ledger_update_spec a qty price SELL := by
  have hm : 0 ≤ price * qty := mul_nonneg hp hq
  constructor
  · simp only [update_account, ledger_update_spec, eq_self_iff_true, if_true]
    rw [clamp_add_eq a.shares qty hs1 hq, clamp_sub_eq a.cents (price * qty) hc2 hm,
        if_min_comm, if_max_comm]
  · have hne : SELL ≠ BUY := by decide
    simp only [update_account, ledger_update_spec]
    rw [if_neg hne, if_neg hne, if_neg hne, if_neg hne]
    rw [clamp_sub_eq a.shares qty hs2 hq, clamp_add_eq a.cents (price * qty) hc1 hm,
        if_min_comm, if_max_comm]

theorem claim_C4_witness :
    update_account (accWitness "A") 7 5 BUY = ledger_update_spec (accWitness "A") 7 5 BUY ∧
    update_account (accWitness "A") 7 5 SELL = ledger_update_spec (accWitness "A") 7 5 SELL :=
  claim_C4_ledger_update (accWitness "A") 7 5 (by decide) (by decide)
    (by decide) (by decide) (by decide) (by decide)

/-- C5: an ORDER command is validated in the source's order — first the id
cap (`TOO_MANY_ORDERS`), then the account cap (`TOO_HIGH_ACCOUNT`), then the
value check (`SILLY_VALUE`) — and a rejected order leaves the engine state
completely unchanged (no id consumed, no account created, book, quote and
order records untouched). -/
theorem claim_C5_order_validation (eng : Engine) (name : String) (ai q p d t : Int) :
    (eng.orders.length ≥ MAXORDERS →
      execute_order eng name ai q p d t = (eng, ⟨none, TOO_MANY_ORDERS⟩)) ∧
    (eng.orders.length < MAXORDERS → ai ≥ MAXACCOUNTS →
      execute_order eng name ai q p d t = (eng, ⟨none, TOO_HIGH_ACCOUNT⟩)) ∧
    (eng.orders.length < MAXORDERS → ai < MAXACCOUNTS →
      (p < 0 ∨ q < 1 ∨ (d ≠ SELL ∧ d ≠ BUY)) →
      execute_order eng name ai q p d t = (eng, ⟨none, SILLY_VALUE⟩)) := by
  refine ⟨?_, ?_, ?_⟩
  · intro h1
    unfold execute_order
    rw [if_pos h1]
  · intro h1 h2
    unfold execute_order
    rw [if_neg (by omega), if_pos h2]
  · intro h1 h2 h3
    unfold execute_order
    rw [if_neg (by omega), if_neg (by omega), if_pos h3]

theorem claim_C5_witness :
    execute_order emptyEngine "A" 5000 10 10 1 1 = (emptyEngine, ⟨none, TOO_HIGH_ACCOUNT⟩) ∧
    execute_order emptyEngine "A" 3 0 10 1 1 = (emptyEngine, ⟨none, SILLY_VALUE⟩) :=
  ⟨(claim_C5_order_validation emptyEngine "A" 5000 10 10 1 1).2.1 (by decide) (by decide),
   (claim_C5_order_validation emptyEngine "A" 3 0 10 1 1).2.2 (by decide) (by decide)
     (by decide)⟩

/-- C2: a single cross exchanges `q = min(standing.qty, incoming.qty)` at
the standing order's price, decrements both `qty` fields by `q`, increments
both `totalFilled` fields by `q`, appends the identical fill record
`(standing.price, q, ts)` to both orders, and closes exactly the orders
whose `qty` reached 0. -/
theorem claim_C2_cross_effects (eng : Engine) (sid iid : Nat) (hne : sid ≠ iid)
    (hs : sid < eng.orders.length) (hi : iid < eng.orders.length) :
    cross_post eng sid iid := by
  simp only [cross_post]
  have hstand := cross_getOrder_standing eng sid iid hne hs
  have hinc := cross_getOrder_incoming eng sid iid hi
  refine ⟨?_, ?_, ?_, ?_, ?_, ?_, ?_, ?_, ?_, ?_⟩
  · rw [hstand, fill_qty, crossQty_eq_min]
  · rw [hinc, fill_qty, crossQty_eq_min]
  · rw [hstand, fill_totalFilled, crossQty_eq_min]
  · rw [hinc, fill_totalFilled, crossQty_eq_min]
  · rw [hstand, fill_fills, crossQty_eq_min]
  · rw [hinc, fill_fills, crossQty_eq_min]
  · intro h
    rw [hstand, fill_qty] at h
    rw [hstand, fill_isOpen, if_pos h]
  · intro h
    rw [hinc, fill_qty] at h
    rw [hinc, fill_isOpen, if_pos h]
  · intro h
    rw [hstand, fill_qty] at h
    rw [hstand, fill_isOpen, if_neg h]
  · intro h
    rw [hinc, fill_qty] at h
    rw [hinc, fill_isOpen, if_neg h]

theorem claim_C2_witness : cross_post engCrossW 0 1 :=
  claim_C2_cross_effects engCrossW 0 1 (by decide) (by decide) (by decide)

/-- C6: when the standing and incoming orders carry the same account name
the cross skips the ledger update entirely (the accounts list is unchanged,
hence shares, cents, posmin, posmax of every account are unchanged), while
the fill is still recorded on both orders and the quote's last-trade fields
are still set from this cross. -/
theorem claim_C6_self_trade (eng : Engine) (sid iid : Nat) (hne : sid ≠ iid)
    (hs : sid < eng.orders.length) (hi : iid < eng.orders.length)
    (hname : (accGet eng.accounts (eng.getOrder sid).accountId).name
           = (accGet eng.accounts (eng.getOrder iid).accountId).name) :
    self_trade_post eng sid iid := by
  simp only [self_trade_post]
  refine ⟨?_, ?_, ?_, ?_, ?_, ?_⟩
  · rw [cross_accounts_eq]
    exact cross_accounts_self _ _ _ _ _ hname
  · rw [cross_getOrder_standing eng sid iid hne hs, fill_fills, crossQty_eq_min]
  · rw [cross_getOrder_incoming eng sid iid hi, fill_fills, crossQty_eq_min]
  · rw [cross_quote]
  · rw [cross_quote]; simp [crossQty_eq_min]
  · rw [cross_quote]

theorem claim_C6_witness : self_trade_post engSelfW 0 1 :=
  claim_C6_self_trade engSelfW 0 1 (by decide) (by decide) (by decide) (by decide)

theorem crossFold_cons (eng : Engine) (iid s : Nat) (ids : List Nat) :
    crossFold eng iid (s :: ids) = crossFold (cross eng s iid) iid ids := rfl

theorem crossFold_append (eng : Engine) (iid : Nat) (a b : List Nat) :
    crossFold eng iid (a ++ b) = crossFold (crossFold eng iid a) iid b := by
  unfold crossFold
  exact List.foldl_append _ _ _ _

theorem crossFold_bids (iid : Nat) (ids : List Nat) :
    ∀ eng : Engine, (crossFold eng iid ids).bids = eng.bids := by
  induction ids with
  | nil => intro eng; rfl
  | cons s r ih => intro eng; rw [crossFold_cons, ih, cross_bids]

theorem crossFold_asks (iid : Nat) (ids : List Nat) :
    ∀ eng : Engine, (crossFold eng iid ids).asks = eng.asks := by
  induction ids with
  | nil => intro eng; rfl
  | cons s r ih => intro eng; rw [crossFold_cons, ih, cross_asks]

theorem crossFold_orders_length (iid : Nat) (ids : List Nat) :
    ∀ eng : Engine, (crossFold eng iid ids).orders.length = eng.orders.length := by
  induction ids with
  | nil => intro eng; rfl
  | cons s r ih => intro eng; rw [crossFold_cons, ih, cross_orders_length]

theorem crossFold_getOrder_other (iid : Nat) (ids : List Nat) :
    ∀ (eng : Engine) (j : Nat), (∀ s ∈ ids, j ≠ s) → j ≠ iid →
    (crossFold eng iid ids).getOrder j = eng.getOrder j := by
  induction ids with
  | nil => intro eng j _ _; rfl
  | cons s r ih =>
    intro eng j hj hji
    rw [crossFold_cons, ih _ j (fun x hx => hj x (List.mem_cons_of_mem _ hx)) hji,
        cross_getOrder_other eng s iid j (hj s (List.mem_cons_self _ _)) hji]

theorem crossFold_qty_nonneg (iid : Nat) (ids : List Nat) :
    ∀ eng : Engine, (∀ j, 0 ≤ (eng.getOrder j).qty) →
    ∀ j, 0 ≤ ((crossFold eng iid ids).getOrder j).qty := by
  induction ids with
  | nil => intro eng h; exact h
  | cons s r ih => intro eng h; rw [crossFold_cons]; exact ih _ (cross_qty_nonneg eng s iid h)

theorem crossFold_incoming_fields (iid : Nat) (ids : List Nat) :
    ∀ eng : Engine, iid < eng.orders.length →
    ((crossFold eng iid ids).getOrder iid).price = (eng.getOrder iid).price ∧
    ((crossFold eng iid ids).getOrder iid).orderType = (eng.getOrder iid).orderType ∧
    ((crossFold eng iid ids).getOrder iid).direction = (eng.getOrder iid).direction ∧
    ((crossFold eng iid ids).getOrder iid).originalQty = (eng.getOrder iid).originalQty ∧
    ((crossFold eng iid ids).getOrder iid).qty + ((crossFold eng iid ids).getOrder iid).totalFilled
      = (eng.getOrder iid).qty + (eng.getOrder iid).totalFilled := by
  induction ids with
  | nil => intro eng _; exact ⟨rfl, rfl, rfl, rfl, rfl⟩
  | cons s r ih =>
    intro eng hlen
    rw [crossFold_cons]
    have h2 : iid < (cross eng s iid).orders.length := by rw [cross_orders_length]; exact hlen
    obtain ⟨e1, e2, e3, e4, e5⟩ := ih (cross eng s iid) h2
    have hx := cross_getOrder_incoming eng s iid hlen
    refine ⟨?_, ?_, ?_, ?_, ?_⟩
    · rw [e1, hx, fill_price]
    · rw [e2, hx, fill_orderType]
    · rw [e3, hx, fill_direction]
    · rw [e4, hx, fill_originalQty]
    · rw [e5, hx, fill_qty, fill_totalFilled]; ring

theorem truncate_nonpos (ms : List Order) (q : Int) (ids : List Nat) (h : q ≤ 0) :
    truncateByQty ms q ids = [] := by
  cases ids <;> simp [truncateByQty, h]

theorem remaining_nonpos (ms : List Order) (q : Int) (ids : List Nat) (h : q ≤ 0) :
    remainingQty ms q ids = q := by
  cases ids <;> simp [remainingQty, h]

theorem remaining_append (ms : List Order) (a : List Nat) :
    ∀ (q : Int) (b : List Nat),
    remainingQty ms q (a ++ b) = remainingQty ms (remainingQty ms q a) b := by
  induction a with
  | nil => intro q b; rfl
  | cons i r ih =>
    intro q b
    by_cases h : q ≤ 0
    · rw [List.cons_append]
      simp only [remainingQty, if_pos h]
      rw [remaining_nonpos _ _ _ h]
    · rw [List.cons_append]
      simp only [remainingQty, if_neg h]
      exact ih _ b

theorem truncate_append (ms : List Order) (a : List Nat) :
    ∀ (q : Int) (b : List Nat),
    truncateByQty ms q (a ++ b) =
      truncateByQty ms q a ++ truncateByQty ms (remainingQty ms q a) b := by
  induction a with
  | nil => intro q b; rfl
  | cons i r ih =>
    intro q b
    by_cases h : q ≤ 0
    · rw [List.cons_append]
      simp only [truncateByQty, remainingQty, if_pos h]
      rw [truncate_nonpos _ _ _ h]
      rfl
    · rw [List.cons_append]
      simp only [truncateByQty, remainingQty, if_neg h]
      rw [ih _ b]
      rfl

theorem truncate_subset (ms : List Order) (ids : List Nat) :
    ∀ (q : Int) (x : Nat), x ∈ truncateByQty ms q ids → x ∈ ids := by
  induction ids with
  | nil => intro q x h; exact absurd h (by simp [truncateByQty])
  | cons i r ih =>
    intro q x h
    by_cases hq : q ≤ 0
    · rw [truncate_nonpos _ _ _ hq] at h; exact absurd h (by simp)
    · simp only [truncateByQty, if_neg hq] at h
      rcases List.mem_cons.mp h with h | h
      · exact h ▸ List.mem_cons_self _ _
      · exact List.mem_cons_of_mem _ (ih _ x h)

theorem specAdmissible_congr (b : Bool) (o1 o2 : Order) (hp : o1.price = o2.price)
    (ht : o1.orderType = o2.orderType) (ls : List Level) :
    specAdmissible b o1 ls = specAdmissible b o2 ls := by
  unfold specAdmissible
  simp only [hp, ht]

theorem run_level_spec (ms : List Order) (iid : Nat) (ids : List Nat) :
    ∀ (eng : Engine),
    iid ∉ ids → ids.Nodup →
    (∀ j ∈ ids, (ordGet ms j).qty = (eng.getOrder j).qty) →
    iid < eng.orders.length →
    (eng.getOrder iid).isOpen = true →
    0 < (eng.getOrder iid).qty →
    (∀ j, 0 ≤ (eng.getOrder j).qty) →
    run_level eng iid ids =
      (crossFold eng iid (truncateByQty ms (eng.getOrder iid).qty ids),
       decide (remainingQty ms (eng.getOrder iid).qty ids ≤ 0)) ∧
    (0 < remainingQty ms (eng.getOrder iid).qty ids →
      ((run_level eng iid ids).1.getOrder iid).qty = remainingQty ms (eng.getOrder iid).qty ids ∧
      ((run_level eng iid ids).1.getOrder iid).isOpen = true) ∧
    (remainingQty ms (eng.getOrder iid).qty ids ≤ 0 →
      ((run_level eng iid ids).1.getOrder iid).qty = 0 ∧
      ((run_level eng iid ids).1.getOrder iid).isOpen = false) := by
  induction ids with
  | nil =>
    intro eng _ _ _ _ h5 h6 _
    refine ⟨?_, ?_, ?_⟩
    · have hd : decide (remainingQty ms (eng.getOrder iid).qty [] ≤ 0) = false :=
        decide_eq_false (by simp only [remainingQty]; omega)
      show (eng, false) = _
      rw [hd]
      rfl
    · intro _
      exact ⟨rfl, h5⟩
    · intro h
      exact absurd h (by simp only [remainingQty]; omega)
  | cons sid rest ih =>
    intro eng h1 h2 h3 h4 h5 h6 h7
    have hnotin_rest : iid ∉ rest := fun hx => h1 (List.mem_cons_of_mem _ hx)
    have hms_sid : (ordGet ms sid).qty = (eng.getOrder sid).qty := h3 sid (List.mem_cons_self _ _)
    have hcq : crossQty eng sid iid = min (eng.getOrder sid).qty (eng.getOrder iid).qty :=
      crossQty_eq_min eng sid iid
    have hinc1 : (cross eng sid iid).getOrder iid =
        fill_order_fields (eng.getOrder iid) (crossQty eng sid iid) (eng.getOrder sid).price eng.time :=
      cross_getOrder_incoming eng sid iid h4
    have hqty1 : ((cross eng sid iid).getOrder iid).qty =
        (eng.getOrder iid).qty - crossQty eng sid iid := by rw [hinc1, fill_qty]
    have hopen1 : ((cross eng sid iid).getOrder iid).isOpen =
        (if (eng.getOrder iid).qty - crossQty eng sid iid = 0 then false else true) := by
      rw [hinc1, fill_isOpen, h5]
    have hsq : 0 ≤ (eng.getOrder sid).qty := h7 sid
    have htrunc : truncateByQty ms (eng.getOrder iid).qty (sid :: rest) =
        sid :: truncateByQty ms ((eng.getOrder iid).qty - (ordGet ms sid).qty) rest := by
      simp only [truncateByQty]
      rw [if_neg (by omega)]
    have hrem : remainingQty ms (eng.getOrder iid).qty (sid :: rest) =
        remainingQty ms ((eng.getOrder iid).qty - (ordGet ms sid).qty) rest := by
      simp only [remainingQty]
      rw [if_neg (by omega)]
    rcases le_or_lt ((eng.getOrder iid).qty - (ordGet ms sid).qty) 0 with hc | hc
    · have hc' : (eng.getOrder iid).qty - (eng.getOrder sid).qty ≤ 0 := by
        rw [hms_sid] at hc; exact hc
      have hcq2 : crossQty eng sid iid = (eng.getOrder iid).qty := by
        rw [hcq, min_eq_right (by omega)]
      have hq0 : ((cross eng sid iid).getOrder iid).qty = 0 := by
        rw [hqty1, hcq2]; exact sub_self _
      have ho0 : ((cross eng sid iid).getOrder iid).isOpen = false := by
        rw [hopen1, hcq2, if_pos (sub_self _)]
      have hrl : run_level eng iid (sid :: rest) = (cross eng sid iid, true) := by
        simp only [run_level]
        rw [if_pos ho0]
      have hrem2 : remainingQty ms (eng.getOrder iid).qty (sid :: rest) =
          (eng.getOrder iid).qty - (ordGet ms sid).qty := by
        rw [hrem, remaining_nonpos _ _ _ hc]
      refine ⟨?_, ?_, ?_⟩
      · rw [hrl, htrunc, truncate_nonpos _ _ _ hc, hrem2, decide_eq_true hc]
        rfl
      · intro hpos
        rw [hrem2] at hpos
        omega
      · intro _
        rw [hrl]
        exact ⟨hq0, ho0⟩
    · have hc' : 0 < (eng.getOrder iid).qty - (eng.getOrder sid).qty := by
        rw [hms_sid] at hc; exact hc
      have hcq2 : crossQty eng sid iid = (eng.getOrder sid).qty := by
        rw [hcq, min_eq_left (by omega)]
      have hq1 : ((cross eng sid iid).getOrder iid).qty =
          (eng.getOrder iid).qty - (eng.getOrder sid).qty := by rw [hqty1, hcq2]
      have ho1 : ((cross eng sid iid).getOrder iid).isOpen = true := by
        rw [hopen1, hcq2, if_neg (by omega)]
      have hms1 : ∀ j ∈ rest, (ordGet ms j).qty = ((cross eng sid iid).getOrder j).qty := by
        intro j hj
        have hjs : j ≠ sid := fun hx => (List.nodup_cons.mp h2).1 (hx ▸ hj)
        have hji : j ≠ iid := fun hx => hnotin_rest (hx ▸ hj)
        rw [cross_getOrder_other eng sid iid j hjs hji]
        exact h3 j (List.mem_cons_of_mem _ hj)
      have hlen1 : iid < (cross eng sid iid).orders.length := by
        rw [cross_orders_length]; exact h4
      have hq1pos : 0 < ((cross eng sid iid).getOrder iid).qty := by
        rw [hq1]; omega
      obtain ⟨ih1, ih2, ih3⟩ := ih (cross eng sid iid) hnotin_rest (List.nodup_cons.mp h2).2
        hms1 hlen1 ho1 hq1pos (cross_qty_nonneg eng sid iid h7)
      have hrl : run_level eng iid (sid :: rest) = run_level (cross eng sid iid) iid rest := by
        simp only [run_level]
        rw [if_neg (by rw [ho1]; simp)]
      rw [hq1, ← hms_sid] at ih1 ih2 ih3
      refine ⟨?_, ?_, ?_⟩
      · rw [hrl, ih1, htrunc, hrem]
        rfl
      · intro hpos
        rw [hrem] at hpos
        rw [hrem, hrl]
        exact ih2 hpos
      · intro hneg
        rw [hrem] at hneg
        rw [hrl]
        exact ih3 hneg

theorem specAdmissible_cons (b : Bool) (o : Order) (lvl : Level) (rest : List Level) :
    specAdmissible b o (lvl :: rest) =
      if (if b then lvl.price < o.price else lvl.price > o.price) ∧ o.orderType ≠ MARKET
      then [] else lvl :: specAdmissible b o rest := by
  by_cases h : (if b then lvl.price < o.price else lvl.price > o.price) ∧ o.orderType ≠ MARKET
  · rw [if_pos h]
    simp only [specAdmissible, List.takeWhile]
    simp [h]
  · rw [if_neg h]
    simp only [specAdmissible, List.takeWhile]
    simp [h]

theorem run_levels_spec (ms : List Order) (iid : Nat) (sellSide : Bool) (levels : List Level) :
    ∀ (eng : Engine),
    iid ∉ levelIds levels → (levelIds levels).Nodup →
    (∀ j ∈ levelIds levels, (ordGet ms j).qty = (eng.getOrder j).qty) →
    iid < eng.orders.length →
    (eng.getOrder iid).isOpen = true →
    0 < (eng.getOrder iid).qty →
    (∀ j, 0 ≤ (eng.getOrder j).qty) →
    run_levels eng iid sellSide levels =
      crossFold eng iid (truncateByQty ms (eng.getOrder iid).qty
        (levelIds (specAdmissible sellSide (eng.getOrder iid) levels))) ∧
    (0 < remainingQty ms (eng.getOrder iid).qty
        (levelIds (specAdmissible sellSide (eng.getOrder iid) levels)) →
      ((run_levels eng iid sellSide levels).getOrder iid).qty =
        remainingQty ms (eng.getOrder iid).qty
          (levelIds (specAdmissible sellSide (eng.getOrder iid) levels)) ∧
      ((run_levels eng iid sellSide levels).getOrder iid).isOpen = true) ∧
    (remainingQty ms (eng.getOrder iid).qty
        (levelIds (specAdmissible sellSide (eng.getOrder iid) levels)) ≤ 0 →
      ((run_levels eng iid sellSide levels).getOrder iid).qty = 0 ∧
      ((run_levels eng iid sellSide levels).getOrder iid).isOpen = false) := by
  induction levels with
  | nil =>
    intro eng _ _ _ _ h5 h6 _
    refine ⟨rfl, ?_, ?_⟩
    · intro _
      exact ⟨rfl, h5⟩
    · intro h
      exact absurd h (by simp only [specAdmissible, List.takeWhile, levelIds, remainingQty]; omega)
  | cons lvl rest ih =>
    intro eng h1 h2 h3 h4 h5 h6 h7
    have hlvlids : levelIds (lvl :: rest) = lvl.orderIds ++ levelIds rest := rfl
    rw [hlvlids] at h1 h2 h3
    have h1a : iid ∉ lvl.orderIds := fun hx => h1 (List.mem_append_left _ hx)
    have h1b : iid ∉ levelIds rest := fun hx => h1 (List.mem_append_right _ hx)
    obtain ⟨h2a, h2b, h2c⟩ := List.nodup_append.mp h2
    have h3a : ∀ j ∈ lvl.orderIds, (ordGet ms j).qty = (eng.getOrder j).qty :=
      fun j hj => h3 j (List.mem_append_left _ hj)
    have h3b : ∀ j ∈ levelIds rest, (ordGet ms j).qty = (eng.getOrder j).qty :=
      fun j hj => h3 j (List.mem_append_right _ hj)
    by_cases hg : (if sellSide then lvl.price < (eng.getOrder iid).price
        else lvl.price > (eng.getOrder iid).price) ∧ (eng.getOrder iid).orderType ≠ MARKET
    · -- price gate blocks this level: the walk stops with the engine unchanged
      have hadm : specAdmissible sellSide (eng.getOrder iid) (lvl :: rest) = [] := by
        rw [specAdmissible_cons, if_pos hg]
      have hRL : run_levels eng iid sellSide (lvl :: rest) = eng := by
        simp only [run_levels]
        rw [if_pos hg]
      rw [hadm, hRL]
      refine ⟨rfl, ?_, ?_⟩
      · intro _
        exact ⟨rfl, h5⟩
      · intro h
        exact absurd h (by simp only [levelIds, remainingQty]; omega)
    · -- admissible level: cross its whole FIFO, then possibly continue
      have hadm : specAdmissible sellSide (eng.getOrder iid) (lvl :: rest) =
          lvl :: specAdmissible sellSide (eng.getOrder iid) rest := by
        rw [specAdmissible_cons, if_neg hg]
      obtain ⟨hA, hB, hC⟩ := run_level_spec ms iid lvl.orderIds eng h1a h2a h3a h4 h5 h6 h7
      have hfst : (run_level eng iid lvl.orderIds).1 =
          crossFold eng iid (truncateByQty ms (eng.getOrder iid).qty lvl.orderIds) := by
        rw [hA]
      rw [hadm]
      have hids : levelIds (lvl :: specAdmissible sellSide (eng.getOrder iid) rest) =
          lvl.orderIds ++ levelIds (specAdmissible sellSide (eng.getOrder iid) rest) := rfl
      rw [hids]
      rw [truncate_append, remaining_append]
      rcases le_or_lt (remainingQty ms (eng.getOrder iid).qty lvl.orderIds) 0 with hr | hr
      · -- the incoming closed inside this level
        have hRL : run_levels eng iid sellSide (lvl :: rest) =
            crossFold eng iid (truncateByQty ms (eng.getOrder iid).qty lvl.orderIds) := by
          simp only [run_levels]
          rw [if_neg hg, hA, decide_eq_true hr]
        rw [hRL, truncate_nonpos _ _ _ hr, List.append_nil,
            remaining_nonpos _ _ _ hr]
        obtain ⟨hq0, ho0⟩ := hC hr
        rw [hfst] at hq0 ho0
        refine ⟨rfl, ?_, ?_⟩
        · intro hpos
          omega
        · intro _
          exact ⟨hq0, ho0⟩
      · -- the whole level was consumed and the incoming is still open
        obtain ⟨hq1, ho1⟩ := hB hr
        rw [hfst] at hq1 ho1
        have hRL : run_levels eng iid sellSide (lvl :: rest) =
            run_levels (crossFold eng iid (truncateByQty ms (eng.getOrder iid).qty lvl.orderIds))
              iid sellSide rest := by
          simp only [run_levels]
          rw [if_neg hg, hA, decide_eq_false (by omega)]
        have hlen1 : iid < (crossFold eng iid
            (truncateByQty ms (eng.getOrder iid).qty lvl.orderIds)).orders.length := by
          rw [crossFold_orders_length]; exact h4
        have hms1 : ∀ j ∈ levelIds rest, (ordGet ms j).qty =
            ((crossFold eng iid (truncateByQty ms (eng.getOrder iid).qty lvl.orderIds)).getOrder j).qty := by
          intro j hj
          rw [crossFold_getOrder_other iid _ eng j
            (fun s hs => fun hx => h2c (hx ▸ truncate_subset ms lvl.orderIds _ s hs) hj)
            (fun hx => h1b (hx ▸ hj))]
          exact h3b j hj
        obtain ⟨hprice, htype, hdir, horig, hsum⟩ :=
          crossFold_incoming_fields iid (truncateByQty ms (eng.getOrder iid).qty lvl.orderIds) eng h4
        have hadm2 : specAdmissible sellSide ((crossFold eng iid
              (truncateByQty ms (eng.getOrder iid).qty lvl.orderIds)).getOrder iid) rest =
            specAdmissible sellSide (eng.getOrder iid) rest :=
          specAdmissible_congr _ _ _ hprice htype rest
        obtain ⟨ih1, ih2, ih3⟩ := ih (crossFold eng iid
            (truncateByQty ms (eng.getOrder iid).qty lvl.orderIds))
          h1b h2b hms1 hlen1 ho1 (by omega)
          (crossFold_qty_nonneg iid _ eng h7)
        rw [hadm2, hq1] at ih1 ih2 ih3
        rw [hRL]
        refine ⟨?_, ?_, ?_⟩
        · rw [ih1, crossFold_append]
        · intro hpos
          exact ih2 hpos
        · intro hneg
          exact ih3 hneg

theorem ordGet_mem (orders : List Order) (j : Nat) (h : j < orders.length) :
    ordGet orders j ∈ orders := by
  induction orders generalizing j with
  | nil => simp at h
  | cons a l ih =>
    cases j with
    | zero => exact List.mem_cons_self _ _
    | succ j => exact List.mem_cons_of_mem _ (ih j (by simpa using h))

theorem ordGet_out (orders : List Order) (j : Nat) (h : orders.length ≤ j) :
    ordGet orders j = defaultOrder := by
  induction orders generalizing j with
  | nil => cases j <;> rfl
  | cons a l ih =>
    cases j with
    | zero => simp at h
    | succ j => exact ih j (by simpa using h)

theorem qty_nonneg_all (eng : Engine) (h : ∀ o ∈ eng.orders, 0 ≤ o.qty) :
    ∀ j, 0 ≤ (eng.getOrder j).qty := by
  intro j
  by_cases hj : j < eng.orders.length
  · exact h _ (ordGet_mem eng.orders j hj)
  · show 0 ≤ (ordGet eng.orders j).qty
    rw [ordGet_out eng.orders j (by omega)]
    exact le_refl 0

/-- C1: the matcher visits resting orders in strict price-time priority.
`visitSequence` is built from the spec's wording: take the opposite side's
levels from best outward while the price gate admits them (a MARKET incoming
ignores the gate), concatenate each admitted level's FIFO queue in order,
and cut the sequence off as soon as the incoming order's running quantity is
exhausted (or the admissible book ends). `run_order` equals the fold of
`cross` over exactly this sequence. -/
theorem claim_C1_matcher_priority (eng : Engine) (iid : Nat)
    (hwf : books_wf eng)
    (hib : iid ∉ levelIds eng.bids) (hia : iid ∉ levelIds eng.asks)
    (hlen : iid < eng.orders.length)
    (ho : (eng.getOrder iid).isOpen = true)
    (hq : 0 < (eng.getOrder iid).qty) :
    run_order eng iid = crossFold eng iid (visitSequence eng iid) := by
  obtain ⟨hwb, hwa, _, _, hqty⟩ := hwf
  have hpos : ∀ j, 0 ≤ (eng.getOrder j).qty := qty_nonneg_all eng hqty
  by_cases hd : (eng.getOrder iid).direction = SELL
  · have hRO : run_order eng iid = run_levels eng iid true eng.bids := by
      unfold run_order; rw [if_pos hd]
    have hv : visitSequence eng iid = truncateByQty eng.orders (eng.getOrder iid).qty
        (levelIds (specAdmissible true (eng.getOrder iid) eng.bids)) := by
      simp only [visitSequence]
      rw [decide_eq_true hd, if_pos hd]
    rw [hRO, hv,
      (run_levels_spec eng.orders iid true eng.bids eng hib hwb (fun j _ => rfl) hlen ho hq hpos).1]
  · have hRO : run_order eng iid = run_levels eng iid false eng.asks := by
      unfold run_order; rw [if_neg hd]
    have hv : visitSequence eng iid = truncateByQty eng.orders (eng.getOrder iid).qty
        (levelIds (specAdmissible false (eng.getOrder iid) eng.asks)) := by
      simp only [visitSequence]
      rw [decide_eq_false hd, if_neg hd]
    rw [hRO, hv,
      (run_levels_spec eng.orders iid false eng.asks eng hia hwa (fun j _ => rfl) hlen ho hq hpos).1]

theorem claim_C1_witness : run_order engRunW 2 = crossFold engRunW 2 (visitSequence engRunW 2) :=
  claim_C1_matcher_priority engRunW 2 (by decide) (by decide) (by decide) (by decide)
    (by decide) (by decide)

theorem alc_orders (eng : Engine) (n : String) (ai : Int) :
    (account_lookup_or_create eng n ai).orders = eng.orders := by
  unfold account_lookup_or_create; split <;> rfl

theorem alc_bids (eng : Engine) (n : String) (ai : Int) :
    (account_lookup_or_create eng n ai).bids = eng.bids := by
  unfold account_lookup_or_create; split <;> rfl

theorem alc_asks (eng : Engine) (n : String) (ai : Int) :
    (account_lookup_or_create eng n ai).asks = eng.asks := by
  unfold account_lookup_or_create; split <;> rfl

theorem alc_time (eng : Engine) (n : String) (ai : Int) :
    (account_lookup_or_create eng n ai).time = eng.time := by
  unfold account_lookup_or_create; split <;> rfl

theorem alc_quote (eng : Engine) (n : String) (ai : Int) :
    (account_lookup_or_create eng n ai).quote = eng.quote := by
  unfold account_lookup_or_create; split <;> rfl

theorem alc_tickers (eng : Engine) (n : String) (ai : Int) :
    (account_lookup_or_create eng n ai).tickers = eng.tickers := by
  unfold account_lookup_or_create; split <;> rfl

theorem aota_orders (eng : Engine) (ai : Int) (oid : Nat) :
    (add_order_to_account eng ai oid).orders = eng.orders := rfl

theorem aota_bids (eng : Engine) (ai : Int) (oid : Nat) :
    (add_order_to_account eng ai oid).bids = eng.bids := rfl

theorem aota_asks (eng : Engine) (ai : Int) (oid : Nat) :
    (add_order_to_account eng ai oid).asks = eng.asks := rfl

theorem aota_time (eng : Engine) (ai : Int) (oid : Nat) :
    (add_order_to_account eng ai oid).time = eng.time := rfl

theorem aota_quote (eng : Engine) (ai : Int) (oid : Nat) :
    (add_order_to_account eng ai oid).quote = eng.quote := rfl

theorem aota_tickers (eng : Engine) (ai : Int) (oid : Nat) :
    (add_order_to_account eng ai oid).tickers = eng.tickers := rfl

theorem placed_orders (eng : Engine) (n : String) (ai q p d t : Int) :
    (placed_engine eng n ai q p d t).orders = eng.orders ++ [new_order eng ai q p d t] := by
  simp only [placed_engine, aota_orders, new_order, alc_orders, alc_time]

theorem placed_bids (eng : Engine) (n : String) (ai q p d t : Int) :
    (placed_engine eng n ai q p d t).bids = eng.bids := by
  simp only [placed_engine, aota_bids, alc_bids]

theorem placed_asks (eng : Engine) (n : String) (ai q p d t : Int) :
    (placed_engine eng n ai q p d t).asks = eng.asks := by
  simp only [placed_engine, aota_asks, alc_asks]

theorem placed_time (eng : Engine) (n : String) (ai q p d t : Int) :
    (placed_engine eng n ai q p d t).time = eng.time + 1 := by
  simp only [placed_engine, aota_time, alc_time]

theorem placed_quote (eng : Engine) (n : String) (ai q p d t : Int) :
    (placed_engine eng n ai q p d t).quote = eng.quote := by
  simp only [placed_engine, aota_quote, alc_quote]

theorem placed_tickers (eng : Engine) (n : String) (ai q p d t : Int) :
    (placed_engine eng n ai q p d t).tickers = eng.tickers := by
  simp only [placed_engine, aota_tickers, alc_tickers]

theorem placed_length (eng : Engine) (n : String) (ai q p d t : Int) :
    (placed_engine eng n ai q p d t).orders.length = eng.orders.length + 1 := by
  rw [placed_orders]; simp

theorem placed_getOrder_new (eng : Engine) (n : String) (ai q p d t : Int) :
    (placed_engine eng n ai q p d t).getOrder eng.orders.length = new_order eng ai q p d t := by
  show ordGet (placed_engine eng n ai q p d t).orders eng.orders.length = _
  rw [placed_orders, ordGet_append_self]

theorem placed_getOrder_old (eng : Engine) (n : String) (ai q p d t : Int) (j : Nat)
    (hj : j < eng.orders.length) :
    (placed_engine eng n ai q p d t).getOrder j = eng.getOrder j := by
  show ordGet (placed_engine eng n ai q p d t).orders j = _
  rw [placed_orders, ordGet_append_lt _ _ _ hj]
  rfl

theorem execute_order_accepted (eng : Engine) (n : String) (ai q p d t : Int)
    (hcap : eng.orders.length < MAXORDERS) (hacc : ai < MAXACCOUNTS)
    (hval : ¬(p < 0 ∨ q < 1 ∨ (d ≠ SELL ∧ d ≠ BUY))) :
    execute_order eng n ai q p d t =
      (ticker_phase (rest_or_close_phase (market_price_phase (cleanup_phase
        (fok_gate (placed_engine eng n ai q p d t) eng.orders.length) eng.orders.length)
        eng.orders.length) eng.orders.length) eng.orders.length,
       ⟨some eng.orders.length, 0⟩) := by
  unfold execute_order
  rw [if_neg (by omega), if_neg (by omega), if_neg hval]
  rw [alc_orders]

theorem cleanup_phase_orders (eng : Engine) (id : Nat) :
    (cleanup_phase eng id).orders = eng.orders := by
  unfold cleanup_phase; split <;> rfl

theorem cleanup_phase_getOrder (eng : Engine) (id j : Nat) :
    (cleanup_phase eng id).getOrder j = eng.getOrder j := by
  unfold cleanup_phase Engine.getOrder; split <;> rfl

theorem cleanup_phase_quote (eng : Engine) (id : Nat) :
    (cleanup_phase eng id).quote = eng.quote := by
  unfold cleanup_phase; split <;> rfl

theorem cleanup_phase_tickers (eng : Engine) (id : Nat) :
    (cleanup_phase eng id).tickers = eng.tickers := by
  unfold cleanup_phase; split <;> rfl

theorem market_price_phase_skip (eng : Engine) (id : Nat)
    (h : (eng.getOrder id).orderType ≠ MARKET) :
    market_price_phase eng id = eng := by
  unfold market_price_phase
  rw [if_neg h]

theorem rest_or_close_phase_discard (eng : Engine) (id : Nat)
    (ho : (eng.getOrder id).isOpen = true) (ht : (eng.getOrder id).orderType ≠ LIMIT) :
    rest_or_close_phase eng id =
      eng.setOrder id { eng.getOrder id with isOpen := false, qty := 0 } := by
  unfold rest_or_close_phase
  rw [if_pos ho, if_neg ht]

theorem rest_or_close_phase_closed (eng : Engine) (id : Nat)
    (ho : (eng.getOrder id).isOpen = false) :
    rest_or_close_phase eng id = eng := by
  unfold rest_or_close_phase
  rw [if_neg (by rw [ho]; simp)]

theorem ticker_phase_skip (eng : Engine) (id : Nat)
    (h1 : (eng.getOrder id).totalFilled = 0) (h2 : (eng.getOrder id).orderType ≠ LIMIT) :
    ticker_phase eng id = eng := by
  unfold ticker_phase
  rw [if_neg (by rw [h1]; simp [h2])]

theorem ticker_phase_fire (eng : Engine) (id : Nat)
    (h : (eng.getOrder id).totalFilled ≠ 0 ∨ (eng.getOrder id).orderType = LIMIT) :
    ticker_phase eng id = create_ticker_message (remake_most_of_quote eng) := by
  unfold ticker_phase
  rw [if_pos h]

theorem setOrder_getOrder_self (eng : Engine) (id : Nat) (o : Order)
    (h : id < eng.orders.length) :
    (eng.setOrder id o).getOrder id = o := by
  show ordGet (eng.orders.set id o) id = o
  exact ordGet_set_self _ _ _ h

theorem setOrder_quote (eng : Engine) (id : Nat) (o : Order) :
    (eng.setOrder id o).quote = eng.quote := rfl

theorem setOrder_tickers (eng : Engine) (id : Nat) (o : Order) :
    (eng.setOrder id o).tickers = eng.tickers := rfl

theorem setOrder_bids (eng : Engine) (id : Nat) (o : Order) :
    (eng.setOrder id o).bids = eng.bids := rfl

theorem setOrder_asks (eng : Engine) (id : Nat) (o : Order) :
    (eng.setOrder id o).asks = eng.asks := rfl

theorem phases_discard (E : Engine) (id : Nat)
    (hid : id < E.orders.length)
    (ho : (E.getOrder id).isOpen = true)
    (ht1 : (E.getOrder id).orderType ≠ MARKET)
    (ht2 : (E.getOrder id).orderType ≠ LIMIT)
    (htf : (E.getOrder id).totalFilled = 0) :
    ticker_phase (rest_or_close_phase (market_price_phase (cleanup_phase E id) id) id) id =
      (cleanup_phase E id).setOrder id { E.getOrder id with isOpen := false, qty := 0 } := by
  have h1 : (cleanup_phase E id).getOrder id = E.getOrder id := cleanup_phase_getOrder E id id
  rw [market_price_phase_skip _ _ (by rw [h1]; exact ht1)]
  rw [rest_or_close_phase_discard _ _ (by rw [h1]; exact ho) (by rw [h1]; exact ht2), h1]
  have hlen : id < (cleanup_phase E id).orders.length := by
    rw [cleanup_phase_orders]; exact hid
  have h2 : ((cleanup_phase E id).setOrder id
      { E.getOrder id with isOpen := false, qty := 0 }).getOrder id =
      { E.getOrder id with isOpen := false, qty := 0 } := setOrder_getOrder_self _ _ _ hlen
  rw [ticker_phase_skip _ _ (by rw [h2]; exact htf) (by rw [h2]; exact ht2)]

/-- C3: FOK feasibility is decided before matching by the subtraction-only
walk `fok_can_buy`/`fok_can_sell` over the crossable resting quantity within
the limit price (feasible iff the running decrement of the requested
quantity reaches ≤ 0), the matcher runs only if feasible, and an infeasible
FOK order is accepted with zero fills, ends closed, and emits no ticker
(the quote is unchanged). -/
theorem claim_C3_fok_gate (eng : Engine) (name : String) (ai q p : Int)
    (hcap : eng.orders.length < MAXORDERS) (hacc : ai < MAXACCOUNTS)
    (hp : 0 ≤ p) (hq : 1 ≤ q) :
    (fok_can_buy (eng.orders ++ [new_order eng ai q p BUY FOK]) q p eng.asks = false →
      fok_infeasible_post eng name ai q p BUY) ∧
    (fok_can_sell (eng.orders ++ [new_order eng ai q p SELL FOK]) q p eng.bids = false →
      fok_infeasible_post eng name ai q p SELL) := by
  constructor
  · intro hfok
    simp only [fok_infeasible_post]
    rw [execute_order_accepted eng name ai q p BUY FOK hcap hacc
      (by
        intro h
        rcases h with h | h | h
        · omega
        · omega
        · exact h.2 rfl)]
    have hEnew := placed_getOrder_new eng name ai q p BUY FOK
    have hfg : fok_gate (placed_engine eng name ai q p BUY FOK) eng.orders.length =
        placed_engine eng name ai q p BUY FOK := by
      simp only [new_order] at hfok
      simp only [fok_gate, hEnew, new_order, placed_orders, placed_asks]
      simp [hfok]
    rw [hfg]
    rw [phases_discard (placed_engine eng name ai q p BUY FOK) eng.orders.length
      (by rw [placed_length]; omega)
      (by rw [hEnew]; rfl) (by rw [hEnew]; simp [new_order, FOK, MARKET])
      (by rw [hEnew]; simp [new_order, FOK, LIMIT])
      (by rw [hEnew]; rfl)]
    have hgot : ((cleanup_phase (placed_engine eng name ai q p BUY FOK) eng.orders.length).setOrder
        eng.orders.length
        { (placed_engine eng name ai q p BUY FOK).getOrder eng.orders.length with
          isOpen := false, qty := 0 }).getOrder eng.orders.length =
        { (placed_engine eng name ai q p BUY FOK).getOrder eng.orders.length with
          isOpen := false, qty := 0 } :=
      setOrder_getOrder_self _ _ _ (by rw [cleanup_phase_orders, placed_length]; omega)
    refine ⟨rfl, ?_, ?_, ?_, ?_, ?_, ?_⟩
    · rw [hgot, hEnew]; rfl
    · rw [hgot, hEnew]; rfl
    · rw [hgot]
    · rw [hgot]
    · rw [setOrder_tickers, cleanup_phase_tickers, placed_tickers]
    · rw [setOrder_quote, cleanup_phase_quote, placed_quote]
  · intro hfok
    simp only [fok_infeasible_post]
    rw [execute_order_accepted eng name ai q p SELL FOK hcap hacc
      (by
        intro h
        rcases h with h | h | h
        · omega
        · omega
        · exact h.1 rfl)]
    have hEnew := placed_getOrder_new eng name ai q p SELL FOK
    have hfg : fok_gate (placed_engine eng name ai q p SELL FOK) eng.orders.length =
        placed_engine eng name ai q p SELL FOK := by
      simp only [new_order] at hfok
      simp only [fok_gate, hEnew, new_order, placed_orders, placed_bids]
      rw [if_neg (fun h => h rfl), if_neg (show ¬(SELL = BUY) by decide)]
      simp [hfok]
    rw [hfg]
    rw [phases_discard (placed_engine eng name ai q p SELL FOK) eng.orders.length
      (by rw [placed_length]; omega)
      (by rw [hEnew]; rfl) (by rw [hEnew]; simp [new_order, FOK, MARKET])
      (by rw [hEnew]; simp [new_order, FOK, LIMIT])
      (by rw [hEnew]; rfl)]
    have hgot : ((cleanup_phase (placed_engine eng name ai q p SELL FOK) eng.orders.length).setOrder
        eng.orders.length
        { (placed_engine eng name ai q p SELL FOK).getOrder eng.orders.length with
          isOpen := false, qty := 0 }).getOrder eng.orders.length =
        { (placed_engine eng name ai q p SELL FOK).getOrder eng.orders.length with
          isOpen := false, qty := 0 } :=
      setOrder_getOrder_self _ _ _ (by rw [cleanup_phase_orders, placed_length]; omega)
    refine ⟨rfl, ?_, ?_, ?_, ?_, ?_, ?_⟩
    · rw [hgot, hEnew]; rfl
    · rw [hgot, hEnew]; rfl
    · rw [hgot]
    · rw [hgot]
    · rw [setOrder_tickers, cleanup_phase_tickers, placed_tickers]
    · rw [setOrder_quote, cleanup_phase_quote, placed_quote]

theorem claim_C3_witness : fok_infeasible_post engCrossW "C" 2 500 5000 SELL :=
  (claim_C3_fok_gate engCrossW "C" 2 500 5000 (by decide) (by decide) (by decide)
    (by decide)).2 (by decide)

theorem remake_orders (eng : Engine) : (remake_most_of_quote eng).orders = eng.orders := rfl

theorem remake_bids (eng : Engine) : (remake_most_of_quote eng).bids = eng.bids := rfl

theorem remake_asks (eng : Engine) : (remake_most_of_quote eng).asks = eng.asks := rfl

theorem remake_getOrder (eng : Engine) (j : Nat) :
    (remake_most_of_quote eng).getOrder j = eng.getOrder j := rfl

theorem remake_tickers (eng : Engine) : (remake_most_of_quote eng).tickers = eng.tickers := rfl

theorem ticker_message_orders (eng : Engine) : (create_ticker_message eng).orders = eng.orders := rfl

theorem ticker_message_bids (eng : Engine) : (create_ticker_message eng).bids = eng.bids := rfl

theorem ticker_message_asks (eng : Engine) : (create_ticker_message eng).asks = eng.asks := rfl

theorem ticker_message_getOrder (eng : Engine) (j : Nat) :
    (create_ticker_message eng).getOrder j = eng.getOrder j := rfl

theorem mem_of_mem_dropWhile {α : Type} (p : α → Bool) (l : List α) :
    ∀ x ∈ l.dropWhile p, x ∈ l := by
  induction l with
  | nil => intro x hx; simpa using hx
  | cons a t ih =>
    intro x hx
    by_cases hpa : p a = true
    · rw [List.dropWhile_cons_of_pos hpa] at hx
      exact List.mem_cons_of_mem _ (ih x hx)
    · rw [List.dropWhile_cons_of_neg hpa] at hx
      exact hx

theorem cleanup_closed_subset (orders : List Order) (levels : List Level) :
    ∀ j ∈ levelIds (cleanup_closed orders levels), j ∈ levelIds levels := by
  induction levels with
  | nil => intro j hj; simpa [cleanup_closed, levelIds] using hj
  | cons lvl rest ih =>
    intro j hj
    simp only [cleanup_closed] at hj
    rcases hdw : lvl.orderIds.dropWhile (fun id => decide ((ordGet orders id).isOpen = false))
      with _ | ⟨a, t⟩
    · rw [hdw] at hj
      exact List.mem_append_right _ (ih j hj)
    · rw [hdw] at hj
      show j ∈ lvl.orderIds ++ levelIds rest
      rcases List.mem_append.mp hj with hj | hj
      · exact List.mem_append_left _
          (mem_of_mem_dropWhile _ lvl.orderIds j (hdw ▸ hj))
      · exact List.mem_append_right _ hj

theorem placed_qty_nonneg (eng : Engine) (n : String) (ai q p d t : Int)
    (hq : 0 ≤ q) (hall : ∀ o ∈ eng.orders, 0 ≤ o.qty) :
    ∀ j, 0 ≤ ((placed_engine eng n ai q p d t).getOrder j).qty := by
  apply qty_nonneg_all
  rw [placed_orders]
  intro o hmem
  rcases List.mem_append.mp hmem with h | h
  · exact hall o h
  · rw [List.mem_singleton.mp h]
    exact hq

theorem fok_ids_remaining (ms : List Order) (ids : List Nat) :
    ∀ q : Int, 0 < q →
    (fok_ids ms q ids = none ↔ remainingQty ms q ids ≤ 0) ∧
    (∀ q', fok_ids ms q ids = some q' → remainingQty ms q ids = q' ∧ 0 < q') := by
  induction ids with
  | nil =>
    intro q hq
    constructor
    · simp only [fok_ids, remainingQty]
      constructor
      · intro h; exact absurd h (by simp)
      · intro h; omega
    · intro q' h
      simp only [fok_ids] at h
      simp only [remainingQty]
      cases h
      exact ⟨rfl, hq⟩
  | cons i r ih =>
    intro q hq
    have hrem : remainingQty ms q (i :: r) = remainingQty ms (q - (ordGet ms i).qty) r := by
      simp only [remainingQty]
      rw [if_neg (by omega)]
    by_cases hc : q - (ordGet ms i).qty ≤ 0
    · have hf : fok_ids ms q (i :: r) = none := by
        simp only [fok_ids]
        rw [if_pos hc]
      constructor
      · rw [hf, hrem, remaining_nonpos _ _ _ hc]
        simp [hc]
      · intro q' h
        rw [hf] at h
        cases h
    · have hf : fok_ids ms q (i :: r) = fok_ids ms (q - (ordGet ms i).qty) r := by
        simp only [fok_ids]
        rw [if_neg hc]
      obtain ⟨ih1, ih2⟩ := ih (q - (ordGet ms i).qty) (by omega)
      constructor
      · rw [hf, hrem]; exact ih1
      · intro q' h
        rw [hf] at h
        rw [hrem]
        exact ih2 q' h

theorem fok_can_buy_iff_remaining (ms : List Order) (o : Order) (hty : o.orderType ≠ MARKET)
    (levels : List Level) :
    ∀ q : Int, 0 < q →
    (fok_can_buy ms q o.price levels = true ↔
      remainingQty ms q (levelIds (specAdmissible false o levels)) ≤ 0) := by
  induction levels with
  | nil =>
    intro q hq
    constructor
    · intro h; exact absurd h (by simp [fok_can_buy])
    · intro h
      exact absurd h (by simp only [specAdmissible, List.takeWhile, levelIds, remainingQty]; omega)
  | cons lvl rest ih =>
    intro q hq
    rw [specAdmissible_cons]
    by_cases hgate : lvl.price ≤ o.price
    · have hblock : ¬((if false = true then lvl.price < o.price else lvl.price > o.price) ∧
          o.orderType ≠ MARKET) := by
        intro h
        simp only [if_neg (by simp : ¬(false = true))] at h
        omega
      rw [if_neg hblock]
      have hids : levelIds (lvl :: specAdmissible false o rest) =
          lvl.orderIds ++ levelIds (specAdmissible false o rest) := rfl
      rw [hids, remaining_append]
      have hfb : fok_can_buy ms q o.price (lvl :: rest) =
          (match fok_ids ms q lvl.orderIds with
           | none => true
           | some q2 => fok_can_buy ms q2 o.price rest) := by
        simp only [fok_can_buy]
        rw [if_pos hgate]
      rw [hfb]
      rcases hfi : fok_ids ms q lvl.orderIds with _ | q2
      · have hr1 : remainingQty ms q lvl.orderIds ≤ 0 :=
          ((fok_ids_remaining ms lvl.orderIds q hq).1).mp hfi
        rw [remaining_nonpos _ _ _ hr1]
        simp [hr1]
      · obtain ⟨hr1, hq2⟩ := (fok_ids_remaining ms lvl.orderIds q hq).2 q2 hfi
        rw [hr1]
        exact ih q2 hq2
    · have hblock : (if false = true then lvl.price < o.price else lvl.price > o.price) ∧
          o.orderType ≠ MARKET := by
        refine ⟨?_, hty⟩
        simp only [if_neg (by simp : ¬(false = true))]
        omega
      rw [if_pos hblock]
      have hfb : fok_can_buy ms q o.price (lvl :: rest) = false := by
        simp only [fok_can_buy]
        rw [if_neg hgate]
      rw [hfb]
      constructor
      · intro h; exact absurd h (by simp)
      · intro h; exact absurd h (by simp only [levelIds, remainingQty]; omega)

theorem fok_can_sell_iff_remaining (ms : List Order) (o : Order) (hty : o.orderType ≠ MARKET)
    (levels : List Level) :
    ∀ q : Int, 0 < q →
    (fok_can_sell ms q o.price levels = true ↔
      remainingQty ms q (levelIds (specAdmissible true o levels)) ≤ 0) := by
  induction levels with
  | nil =>
    intro q hq
    constructor
    · intro h; exact absurd h (by simp [fok_can_sell])
    · intro h
      exact absurd h (by simp only [specAdmissible, List.takeWhile, levelIds, remainingQty]; omega)
  | cons lvl rest ih =>
    intro q hq
    rw [specAdmissible_cons]
    by_cases hgate : lvl.price ≥ o.price
    · have hblock : ¬((if true = true then lvl.price < o.price else lvl.price > o.price) ∧
          o.orderType ≠ MARKET) := by
        intro h
        have h1 := h.1
        rw [if_pos rfl] at h1
        omega
      rw [if_neg hblock]
      have hids : levelIds (lvl :: specAdmissible true o rest) =
          lvl.orderIds ++ levelIds (specAdmissible true o rest) := rfl
      rw [hids, remaining_append]
      have hfb : fok_can_sell ms q o.price (lvl :: rest) =
          (match fok_ids ms q lvl.orderIds with
           | none => true
           | some q2 => fok_can_sell ms q2 o.price rest) := by
        simp only [fok_can_sell]
        rw [if_pos hgate]
      rw [hfb]
      rcases hfi : fok_ids ms q lvl.orderIds with _ | q2
      · have hr1 : remainingQty ms q lvl.orderIds ≤ 0 :=
          ((fok_ids_remaining ms lvl.orderIds q hq).1).mp hfi
        rw [remaining_nonpos _ _ _ hr1]
        simp [hr1]
      · obtain ⟨hr1, hq2⟩ := (fok_ids_remaining ms lvl.orderIds q hq).2 q2 hfi
        rw [hr1]
        exact ih q2 hq2
    · have hblock : (if true = true then lvl.price < o.price else lvl.price > o.price) ∧
          o.orderType ≠ MARKET := by
        refine ⟨?_, hty⟩
        rw [if_pos rfl]
        omega
      rw [if_pos hblock]
      have hfb : fok_can_sell ms q o.price (lvl :: rest) = false := by
        simp only [fok_can_sell]
        rw [if_neg hgate]
      rw [hfb]
      constructor
      · intro h; exact absurd h (by simp)
      · intro h; exact absurd h (by simp only [levelIds, remainingQty]; omega)

theorem cleanup_phase_buy (eng : Engine) (id : Nat)
    (h : ¬((eng.getOrder id).direction = SELL)) :
    cleanup_phase eng id = { eng with asks := cleanup_closed eng.orders eng.asks } := by
  unfold cleanup_phase
  rw [if_neg h]

theorem cleanup_phase_sell (eng : Engine) (id : Nat)
    (h : (eng.getOrder id).direction = SELL) :
    cleanup_phase eng id = { eng with bids := cleanup_closed eng.orders eng.bids } := by
  unfold cleanup_phase
  rw [if_pos h]

theorem cleanup_phase_bids_mem (eng : Engine) (id j : Nat)
    (h : j ∈ levelIds (cleanup_phase eng id).bids) : j ∈ levelIds eng.bids := by
  unfold cleanup_phase at h
  split at h
  · exact cleanup_closed_subset _ _ j h
  · exact h

theorem cleanup_phase_asks_mem (eng : Engine) (id j : Nat)
    (h : j ∈ levelIds (cleanup_phase eng id).asks) : j ∈ levelIds eng.asks := by
  unfold cleanup_phase at h
  split at h
  · exact h
  · exact cleanup_closed_subset _ _ j h

theorem phases_closed_buy (G : Engine) (id : Nat)
    (hdir : ¬((G.getOrder id).direction = SELL))
    (ho : (G.getOrder id).isOpen = false)
    (ht1 : (G.getOrder id).orderType ≠ MARKET)
    (htick : (G.getOrder id).totalFilled ≠ 0 ∨ (G.getOrder id).orderType = LIMIT) :
    ticker_phase (rest_or_close_phase (market_price_phase (cleanup_phase G id) id) id) id =
      create_ticker_message (remake_most_of_quote
        { G with asks := cleanup_closed G.orders G.asks }) := by
  rw [cleanup_phase_buy G id hdir]
  rw [market_price_phase_skip { G with asks := cleanup_closed G.orders G.asks } id ht1]
  rw [rest_or_close_phase_closed { G with asks := cleanup_closed G.orders G.asks } id ho]
  rw [ticker_phase_fire { G with asks := cleanup_closed G.orders G.asks } id htick]

theorem phases_closed_sell (G : Engine) (id : Nat)
    (hdir : (G.getOrder id).direction = SELL)
    (ho : (G.getOrder id).isOpen = false)
    (ht1 : (G.getOrder id).orderType ≠ MARKET)
    (htick : (G.getOrder id).totalFilled ≠ 0 ∨ (G.getOrder id).orderType = LIMIT) :
    ticker_phase (rest_or_close_phase (market_price_phase (cleanup_phase G id) id) id) id =
      create_ticker_message (remake_most_of_quote
        { G with bids := cleanup_closed G.orders G.bids }) := by
  rw [cleanup_phase_sell G id hdir]
  rw [market_price_phase_skip { G with bids := cleanup_closed G.orders G.bids } id ht1]
  rw [rest_or_close_phase_closed { G with bids := cleanup_closed G.orders G.bids } id ho]
  rw [ticker_phase_fire { G with bids := cleanup_closed G.orders G.bids } id htick]

/-- C9: an accepted FOK order never partially fills. Feasibility is decided
by the pre-check; if infeasible the matcher is skipped and the order closes
with zero fills, and if feasible the matcher walk provably consumes the full
requested quantity (the pre-check's subtraction walk covers exactly the
price-admissible standing orders the matcher will visit), so `totalFilled`
ends at `originalQty`. In both cases the order ends closed with `qty = 0`
and never rests on either side of the book. -/
theorem claim_C9_fok_all_or_nothing (eng : Engine) (name : String) (ai q p d : Int)
    (hwf : books_wf eng)
    (hcap : eng.orders.length < MAXORDERS) (hacc : ai < MAXACCOUNTS)
    (hp : 0 ≤ p) (hq : 1 ≤ q) (hd : d = BUY ∨ d = SELL) :
    fok_all_or_nothing_post eng name ai q p d := by
  obtain ⟨hnb, hna, hbb, hba, hqty⟩ := hwf
  have hib : eng.orders.length ∉ levelIds eng.bids := fun hx => by have := hbb _ hx; omega
  have hia : eng.orders.length ∉ levelIds eng.asks := fun hx => by have := hba _ hx; omega
  rcases hd with hd | hd <;> subst hd
  · -- incoming BUY walks the asks
    simp only [fok_all_or_nothing_post]
    rw [execute_order_accepted eng name ai q p BUY FOK hcap hacc
      (by
        intro h
        rcases h with h | h | h
        · omega
        · omega
        · exact h.2 rfl)]
    have hEnew := placed_getOrder_new eng name ai q p BUY FOK
    have hqE : ((placed_engine eng name ai q p BUY FOK).getOrder eng.orders.length).qty = q := by
      rw [hEnew]; rfl
    have hoE : ((placed_engine eng name ai q p BUY FOK).getOrder eng.orders.length).isOpen = true := by
      rw [hEnew]; rfl
    have htE : ((placed_engine eng name ai q p BUY FOK).getOrder eng.orders.length).orderType = FOK := by
      rw [hEnew]; rfl
    have hdE : ((placed_engine eng name ai q p BUY FOK).getOrder eng.orders.length).direction = BUY := by
      rw [hEnew]; rfl
    have htfE : ((placed_engine eng name ai q p BUY FOK).getOrder eng.orders.length).totalFilled = 0 := by
      rw [hEnew]; rfl
    have hoqE : ((placed_engine eng name ai q p BUY FOK).getOrder eng.orders.length).originalQty = q := by
      rw [hEnew]; rfl
    cases hfokb : fok_can_buy (placed_engine eng name ai q p BUY FOK).orders
        ((placed_engine eng name ai q p BUY FOK).getOrder eng.orders.length).qty
        ((placed_engine eng name ai q p BUY FOK).getOrder eng.orders.length).price
        (placed_engine eng name ai q p BUY FOK).asks with
    | false =>
      have hfg : fok_gate (placed_engine eng name ai q p BUY FOK) eng.orders.length =
          placed_engine eng name ai q p BUY FOK := by
        simp only [fok_gate]
        rw [if_neg (fun h => h htE), if_pos hdE, if_neg (by rw [hfokb]; simp)]
      rw [hfg, phases_discard (placed_engine eng name ai q p BUY FOK) eng.orders.length
        (by rw [placed_length]; omega) hoE (by rw [htE]; decide) (by rw [htE]; decide) htfE]
      have hgot : ((cleanup_phase (placed_engine eng name ai q p BUY FOK)
          eng.orders.length).setOrder eng.orders.length
          { (placed_engine eng name ai q p BUY FOK).getOrder eng.orders.length with
            isOpen := false, qty := 0 }).getOrder eng.orders.length =
          { (placed_engine eng name ai q p BUY FOK).getOrder eng.orders.length with
            isOpen := false, qty := 0 } :=
        setOrder_getOrder_self _ _ _ (by rw [cleanup_phase_orders, placed_length]; omega)
      refine ⟨rfl, ?_, ?_, ?_, ?_, ?_⟩
      · rw [hgot]
      · rw [hgot]
      · refine Or.inr ?_
        rw [hgot]
        exact htfE
      · intro hx
        have hx2 : eng.orders.length ∈
            levelIds (cleanup_phase (placed_engine eng name ai q p BUY FOK) eng.orders.length).bids := hx
        have hx3 := cleanup_phase_bids_mem _ _ _ hx2
        rw [placed_bids] at hx3
        exact hib hx3
      · intro hx
        have hx2 : eng.orders.length ∈
            levelIds (cleanup_phase (placed_engine eng name ai q p BUY FOK) eng.orders.length).asks := hx
        have hx3 := cleanup_phase_asks_mem _ _ _ hx2
        rw [placed_asks] at hx3
        exact hia hx3
    | true =>
      have hfg : fok_gate (placed_engine eng name ai q p BUY FOK) eng.orders.length =
          run_order (placed_engine eng name ai q p BUY FOK) eng.orders.length := by
        simp only [fok_gate]
        rw [if_neg (fun h => h htE), if_pos hdE, if_pos hfokb]
      have hro : run_order (placed_engine eng name ai q p BUY FOK) eng.orders.length =
          run_levels (placed_engine eng name ai q p BUY FOK) eng.orders.length false
            (placed_engine eng name ai q p BUY FOK).asks := by
        unfold run_order
        rw [if_neg (by rw [hdE]; decide)]
      have hlenE : eng.orders.length < (placed_engine eng name ai q p BUY FOK).orders.length := by
        rw [placed_length]; omega
      have hnotinE : eng.orders.length ∉ levelIds (placed_engine eng name ai q p BUY FOK).asks := by
        rw [placed_asks]; exact hia
      have hnodE : (levelIds (placed_engine eng name ai q p BUY FOK).asks).Nodup := by
        rw [placed_asks]; exact hna
      have hposE := placed_qty_nonneg eng name ai q p BUY FOK (by omega) hqty
      obtain ⟨c1, c2, c3⟩ := run_levels_spec (placed_engine eng name ai q p BUY FOK).orders
        eng.orders.length false (placed_engine eng name ai q p BUY FOK).asks
        (placed_engine eng name ai q p BUY FOK) hnotinE hnodE (fun j _ => rfl) hlenE hoE
        (by omega) hposE
      have hrem : remainingQty (placed_engine eng name ai q p BUY FOK).orders
          ((placed_engine eng name ai q p BUY FOK).getOrder eng.orders.length).qty
          (levelIds (specAdmissible false
            ((placed_engine eng name ai q p BUY FOK).getOrder eng.orders.length)
            (placed_engine eng name ai q p BUY FOK).asks)) ≤ 0 := by
        refine (fok_can_buy_iff_remaining _ _ (by rw [htE]; decide) _ _ (by omega)).mp hfokb
      obtain ⟨hq0, ho0⟩ := c3 hrem
      obtain ⟨hpr, hty2, hdr, horig, hsum2⟩ := crossFold_incoming_fields eng.orders.length
        (truncateByQty (placed_engine eng name ai q p BUY FOK).orders
          ((placed_engine eng name ai q p BUY FOK).getOrder eng.orders.length).qty
          (levelIds (specAdmissible false
            ((placed_engine eng name ai q p BUY FOK).getOrder eng.orders.length)
            (placed_engine eng name ai q p BUY FOK).asks)))
        (placed_engine eng name ai q p BUY FOK) hlenE
      rw [← c1] at hpr hty2 hdr horig hsum2
      have hGb : (run_levels (placed_engine eng name ai q p BUY FOK) eng.orders.length false
          (placed_engine eng name ai q p BUY FOK).asks).bids = eng.bids := by
        rw [c1, crossFold_bids, placed_bids]
      have hGa : (run_levels (placed_engine eng name ai q p BUY FOK) eng.orders.length false
          (placed_engine eng name ai q p BUY FOK).asks).asks = eng.asks := by
        rw [c1, crossFold_asks, placed_asks]
      rw [hfg, hro, phases_closed_buy
        (run_levels (placed_engine eng name ai q p BUY FOK) eng.orders.length false
          (placed_engine eng name ai q p BUY FOK).asks) eng.orders.length
        (by rw [hdr, hdE]; decide) ho0
        (by rw [hty2, htE]; decide)
        (Or.inl (by omega))]
      refine ⟨rfl, ?_, ?_, ?_, ?_, ?_⟩
      · exact ho0
      · exact hq0
      · refine Or.inl ?_
        show ((run_levels (placed_engine eng name ai q p BUY FOK) eng.orders.length false
            (placed_engine eng name ai q p BUY FOK).asks).getOrder eng.orders.length).totalFilled =
          ((run_levels (placed_engine eng name ai q p BUY FOK) eng.orders.length false
            (placed_engine eng name ai q p BUY FOK).asks).getOrder eng.orders.length).originalQty
        omega
      · intro hx
        have hx2 : eng.orders.length ∈ levelIds (run_levels (placed_engine eng name ai q p BUY FOK)
            eng.orders.length false (placed_engine eng name ai q p BUY FOK).asks).bids := hx
        rw [hGb] at hx2
        exact hib hx2
      · intro hx
        have hx2 := cleanup_closed_subset (run_levels (placed_engine eng name ai q p BUY FOK)
            eng.orders.length false (placed_engine eng name ai q p BUY FOK).asks).orders
          (run_levels (placed_engine eng name ai q p BUY FOK) eng.orders.length false
            (placed_engine eng name ai q p BUY FOK).asks).asks _ hx
        rw [hGa] at hx2
        exact hia hx2
  · -- incoming SELL walks the bids
    simp only [fok_all_or_nothing_post]
    rw [execute_order_accepted eng name ai q p SELL FOK hcap hacc
      (by
        intro h
        rcases h with h | h | h
        · omega
        · omega
        · exact h.1 rfl)]
    have hEnew := placed_getOrder_new eng name ai q p SELL FOK
    have hqE : ((placed_engine eng name ai q p SELL FOK).getOrder eng.orders.length).qty = q := by
      rw [hEnew]; rfl
    have hoE : ((placed_engine eng name ai q p SELL FOK).getOrder eng.orders.length).isOpen = true := by
      rw [hEnew]; rfl
    have htE : ((placed_engine eng name ai q p SELL FOK).getOrder eng.orders.length).orderType = FOK := by
      rw [hEnew]; rfl
    have hdE : ((placed_engine eng name ai q p SELL FOK).getOrder eng.orders.length).direction = SELL := by
      rw [hEnew]; rfl
    have htfE : ((placed_engine eng name ai q p SELL FOK).getOrder eng.orders.length).totalFilled = 0 := by
      rw [hEnew]; rfl
    have hoqE : ((placed_engine eng name ai q p SELL FOK).getOrder eng.orders.length).originalQty = q := by
      rw [hEnew]; rfl
    cases hfokb : fok_can_sell (placed_engine eng name ai q p SELL FOK).orders
        ((placed_engine eng name ai q p SELL FOK).getOrder eng.orders.length).qty
        ((placed_engine eng name ai q p SELL FOK).getOrder eng.orders.length).price
        (placed_engine eng name ai q p SELL FOK).bids with
    | false =>
      have hfg : fok_gate (placed_engine eng name ai q p SELL FOK) eng.orders.length =
          placed_engine eng name ai q p SELL FOK := by
        simp only [fok_gate]
        rw [if_neg (fun h => h htE), if_neg (by rw [hdE]; decide), if_neg (by rw [hfokb]; simp)]
      rw [hfg, phases_discard (placed_engine eng name ai q p SELL FOK) eng.orders.length
        (by rw [placed_length]; omega) hoE (by rw [htE]; decide) (by rw [htE]; decide) htfE]
      have hgot : ((cleanup_phase (placed_engine eng name ai q p SELL FOK)
          eng.orders.length).setOrder eng.orders.length
          { (placed_engine eng name ai q p SELL FOK).getOrder eng.orders.length with
            isOpen := false, qty := 0 }).getOrder eng.orders.length =
          { (placed_engine eng name ai q p SELL FOK).getOrder eng.orders.length with
            isOpen := false, qty := 0 } :=
        setOrder_getOrder_self _ _ _ (by rw [cleanup_phase_orders, placed_length]; omega)
      refine ⟨rfl, ?_, ?_, ?_, ?_, ?_⟩
      · rw [hgot]
      · rw [hgot]
      · refine Or.inr ?_
        rw [hgot]
        exact htfE
      · intro hx
        have hx2 : eng.orders.length ∈
            levelIds (cleanup_phase (placed_engine eng name ai q p SELL FOK) eng.orders.length).bids := hx
        have hx3 := cleanup_phase_bids_mem _ _ _ hx2
        rw [placed_bids] at hx3
        exact hib hx3
      · intro hx
        have hx2 : eng.orders.length ∈
            levelIds (cleanup_phase (placed_engine eng name ai q p SELL FOK) eng.orders.length).asks := hx
        have hx3 := cleanup_phase_asks_mem _ _ _ hx2
        rw [placed_asks] at hx3
        exact hia hx3
    | true =>
      have hfg : fok_gate (placed_engine eng name ai q p SELL FOK) eng.orders.length =
          run_order (placed_engine eng name ai q p SELL FOK) eng.orders.length := by
        simp only [fok_gate]
        rw [if_neg (fun h => h htE), if_neg (by rw [hdE]; decide), if_pos hfokb]
      have hro : run_order (placed_engine eng name ai q p SELL FOK) eng.orders.length =
          run_levels (placed_engine eng name ai q p SELL FOK) eng.orders.length true
            (placed_engine eng name ai q p SELL FOK).bids := by
        unfold run_order
        rw [if_pos hdE]
      have hlenE : eng.orders.length < (placed_engine eng name ai q p SELL FOK).orders.length := by
        rw [placed_length]; omega
      have hnotinE : eng.orders.length ∉ levelIds (placed_engine eng name ai q p SELL FOK).bids := by
        rw [placed_bids]; exact hib
      have hnodE : (levelIds (placed_engine eng name ai q p SELL FOK).bids).Nodup := by
        rw [placed_bids]; exact hnb
      have hposE := placed_qty_nonneg eng name ai q p SELL FOK (by omega) hqty
      obtain ⟨c1, c2, c3⟩ := run_levels_spec (placed_engine eng name ai q p SELL FOK).orders
        eng.orders.length true (placed_engine eng name ai q p SELL FOK).bids
        (placed_engine eng name ai q p SELL FOK) hnotinE hnodE (fun j _ => rfl) hlenE hoE
        (by omega) hposE
      have hrem : remainingQty (placed_engine eng name ai q p SELL FOK).orders
          ((placed_engine eng name ai q p SELL FOK).getOrder eng.orders.length).qty
          (levelIds (specAdmissible true
            ((placed_engine eng name ai q p SELL FOK).getOrder eng.orders.length)
            (placed_engine eng name ai q p SELL FOK).bids)) ≤ 0 := by
        refine (fok_can_sell_iff_remaining _ _ (by rw [htE]; decide) _ _ (by omega)).mp hfokb
      obtain ⟨hq0, ho0⟩ := c3 hrem
      obtain ⟨hpr, hty2, hdr, horig, hsum2⟩ := crossFold_incoming_fields eng.orders.length
        (truncateByQty (placed_engine eng name ai q p SELL FOK).orders
          ((placed_engine eng name ai q p SELL FOK).getOrder eng.orders.length).qty
          (levelIds (specAdmissible true
            ((placed_engine eng name ai q p SELL FOK).getOrder eng.orders.length)
            (placed_engine eng name ai q p SELL FOK).bids)))
        (placed_engine eng name ai q p SELL FOK) hlenE
      rw [← c1] at hpr hty2 hdr horig hsum2
      have hGb : (run_levels (placed_engine eng name ai q p SELL FOK) eng.orders.length true
          (placed_engine eng name ai q p SELL FOK).bids).bids = eng.bids := by
        rw [c1, crossFold_bids, placed_bids]
      have hGa : (run_levels (placed_engine eng name ai q p SELL FOK) eng.orders.length true
          (placed_engine eng name ai q p SELL FOK).bids).asks = eng.asks := by
        rw [c1, crossFold_asks, placed_asks]
      rw [hfg, hro, phases_closed_sell
        (run_levels (placed_engine eng name ai q p SELL FOK) eng.orders.length true
          (placed_engine eng name ai q p SELL FOK).bids) eng.orders.length
        (by rw [hdr, hdE]) ho0
        (by rw [hty2, htE]; decide)
        (Or.inl (by omega))]
      refine ⟨rfl, ?_, ?_, ?_, ?_, ?_⟩
      · exact ho0
      · exact hq0
      · refine Or.inl ?_
        show ((run_levels (placed_engine eng name ai q p SELL FOK) eng.orders.length true
            (placed_engine eng name ai q p SELL FOK).bids).getOrder eng.orders.length).totalFilled =
          ((run_levels (placed_engine eng name ai q p SELL FOK) eng.orders.length true
            (placed_engine eng name ai q p SELL FOK).bids).getOrder eng.orders.length).originalQty
        omega
      · intro hx
        have hx2 := cleanup_closed_subset (run_levels (placed_engine eng name ai q p SELL FOK)
            eng.orders.length true (placed_engine eng name ai q p SELL FOK).bids).orders
          (run_levels (placed_engine eng name ai q p SELL FOK) eng.orders.length true
            (placed_engine eng name ai q p SELL FOK).bids).bids _ hx
        rw [hGb] at hx2
        exact hib hx2
      · intro hx
        have hx2 : eng.orders.length ∈ levelIds (run_levels (placed_engine eng name ai q p SELL FOK)
            eng.orders.length true (placed_engine eng name ai q p SELL FOK).bids).asks := hx
        rw [hGa] at hx2
        exact hia hx2

theorem claim_C9_witness :
    fok_all_or_nothing_post engRunW "D" 3 60 5050 BUY ∧
    fok_all_or_nothing_post engRunW "D" 3 300 5050 BUY :=
  ⟨claim_C9_fok_all_or_nothing engRunW "D" 3 60 5050 BUY (by decide) (by decide) (by decide)
     (by decide) (by decide) (Or.inl rfl),
   claim_C9_fok_all_or_nothing engRunW "D" 3 300 5050 BUY (by decide) (by decide) (by decide)
     (by decide) (by decide) (Or.inl rfl)⟩

theorem ticker_phase_getOrder (eng : Engine) (id j : Nat) :
    (ticker_phase eng id).getOrder j = eng.getOrder j := by
  unfold ticker_phase
  split <;> rfl

theorem ticker_phase_bids (eng : Engine) (id : Nat) :
    (ticker_phase eng id).bids = eng.bids := by
  unfold ticker_phase
  split <;> rfl

theorem ticker_phase_asks (eng : Engine) (id : Nat) :
    (ticker_phase eng id).asks = eng.asks := by
  unfold ticker_phase
  split <;> rfl

theorem phases_discard_fields (E : Engine) (id : Nat)
    (hid : id < E.orders.length)
    (ho : (E.getOrder id).isOpen = true)
    (ht1 : (E.getOrder id).orderType ≠ MARKET)
    (ht2 : (E.getOrder id).orderType ≠ LIMIT) :
    ((ticker_phase (rest_or_close_phase (market_price_phase (cleanup_phase E id) id) id)
        id).getOrder id = { E.getOrder id with isOpen := false, qty := 0 }) ∧
    (∀ j ∈ levelIds (ticker_phase (rest_or_close_phase (market_price_phase (cleanup_phase E id) id)
        id) id).bids, j ∈ levelIds E.bids) ∧
    (∀ j ∈ levelIds (ticker_phase (rest_or_close_phase (market_price_phase (cleanup_phase E id) id)
        id) id).asks, j ∈ levelIds E.asks) := by
  have h1 : (cleanup_phase E id).getOrder id = E.getOrder id := cleanup_phase_getOrder E id id
  rw [market_price_phase_skip (cleanup_phase E id) id (by rw [h1]; exact ht1)]
  rw [rest_or_close_phase_discard (cleanup_phase E id) id (by rw [h1]; exact ho)
    (by rw [h1]; exact ht2), h1]
  refine ⟨?_, ?_, ?_⟩
  · rw [ticker_phase_getOrder]
    exact setOrder_getOrder_self _ _ _ (by rw [cleanup_phase_orders]; exact hid)
  · intro j hj
    rw [ticker_phase_bids] at hj
    exact cleanup_phase_bids_mem _ _ _ hj
  · intro j hj
    rw [ticker_phase_asks] at hj
    exact cleanup_phase_asks_mem _ _ _ hj

/-- C10: an ORDER whose type code is outside {1,2,3,4} passes validation
(which checks only price, quantity and direction), is matched against the
opposite side with limit-style price gating (the gate applies because the
type is not MARKET, so an empty admissible prefix means zero fills), never
rests (any open remainder is closed with `qty = 0`), and its record reports
the order type string "unknown". -/
theorem claim_C10_unknown_type (eng : Engine) (name : String) (ai q p d t : Int)
    (hwf : books_wf eng)
    (hcap : eng.orders.length < MAXORDERS) (hacc : ai < MAXACCOUNTS)
    (hp : 0 ≤ p) (hq : 1 ≤ q) (hd : d = BUY ∨ d = SELL)
    (ht : t ≠ LIMIT ∧ t ≠ MARKET ∧ t ≠ FOK ∧ t ≠ IOC) :
    unknown_type_post eng name ai q p d t ∧
    (specAdmissible (decide (d = SELL)) (new_order eng ai q p d t)
        (if d = SELL then eng.bids else eng.asks) = [] →
      ((execute_order eng name ai q p d t).1.getOrder eng.orders.length).totalFilled = 0) := by
  obtain ⟨hnb, hna, hbb, hba, hqty⟩ := hwf
  have hib : eng.orders.length ∉ levelIds eng.bids := fun hx => by have := hbb _ hx; omega
  have hia : eng.orders.length ∉ levelIds eng.asks := fun hx => by have := hba _ hx; omega
  obtain ⟨ht1, ht2, ht3, ht4⟩ := ht
  rcases hd with hd | hd <;> subst hd
  · -- incoming BUY walks the asks
    simp only [unknown_type_post]
    rw [execute_order_accepted eng name ai q p BUY t hcap hacc
      (by
        intro h
        rcases h with h | h | h
        · omega
        · omega
        · exact h.2 rfl)]
    have hEnew := placed_getOrder_new eng name ai q p BUY t
    have hqE : ((placed_engine eng name ai q p BUY t).getOrder eng.orders.length).qty = q := by
      rw [hEnew]; rfl
    have hoE : ((placed_engine eng name ai q p BUY t).getOrder eng.orders.length).isOpen = true := by
      rw [hEnew]; rfl
    have htE : ((placed_engine eng name ai q p BUY t).getOrder eng.orders.length).orderType = t := by
      rw [hEnew]; rfl
    have hdE : ((placed_engine eng name ai q p BUY t).getOrder eng.orders.length).direction = BUY := by
      rw [hEnew]; rfl
    have htfE : ((placed_engine eng name ai q p BUY t).getOrder eng.orders.length).totalFilled = 0 := by
      rw [hEnew]; rfl
    have hfg : fok_gate (placed_engine eng name ai q p BUY t) eng.orders.length =
        run_order (placed_engine eng name ai q p BUY t) eng.orders.length := by
      simp only [fok_gate]
      rw [if_pos (by rw [htE]; exact ht3)]
    have hro : run_order (placed_engine eng name ai q p BUY t) eng.orders.length =
        run_levels (placed_engine eng name ai q p BUY t) eng.orders.length false
          (placed_engine eng name ai q p BUY t).asks := by
      unfold run_order
      rw [if_neg (by rw [hdE]; decide)]
    have hlenE : eng.orders.length < (placed_engine eng name ai q p BUY t).orders.length := by
      rw [placed_length]; omega
    have hnotinE : eng.orders.length ∉ levelIds (placed_engine eng name ai q p BUY t).asks := by
      rw [placed_asks]; exact hia
    have hnodE : (levelIds (placed_engine eng name ai q p BUY t).asks).Nodup := by
      rw [placed_asks]; exact hna
    have hposE := placed_qty_nonneg eng name ai q p BUY t (by omega) hqty
    obtain ⟨c1, c2, c3⟩ := run_levels_spec (placed_engine eng name ai q p BUY t).orders
      eng.orders.length false (placed_engine eng name ai q p BUY t).asks
      (placed_engine eng name ai q p BUY t) hnotinE hnodE (fun j _ => rfl) hlenE hoE
      (by omega) hposE
    obtain ⟨hpr, hty2, hdr, horig, hsum2⟩ := crossFold_incoming_fields eng.orders.length
      (truncateByQty (placed_engine eng name ai q p BUY t).orders
        ((placed_engine eng name ai q p BUY t).getOrder eng.orders.length).qty
        (levelIds (specAdmissible false
          ((placed_engine eng name ai q p BUY t).getOrder eng.orders.length)
          (placed_engine eng name ai q p BUY t).asks)))
      (placed_engine eng name ai q p BUY t) hlenE
    rw [← c1] at hpr hty2 hdr horig hsum2
    have hGb : (run_levels (placed_engine eng name ai q p BUY t) eng.orders.length false
        (placed_engine eng name ai q p BUY t).asks).bids = eng.bids := by
      rw [c1, crossFold_bids, placed_bids]
    have hGa : (run_levels (placed_engine eng name ai q p BUY t) eng.orders.length false
        (placed_engine eng name ai q p BUY t).asks).asks = eng.asks := by
      rw [c1, crossFold_asks, placed_asks]
    have hunk : orderTypeString t = "unknown" := by
      unfold orderTypeString
      rw [if_neg ht1, if_neg ht2, if_neg ht4, if_neg ht3]
    rcases le_or_lt (remainingQty (placed_engine eng name ai q p BUY t).orders
        ((placed_engine eng name ai q p BUY t).getOrder eng.orders.length).qty
        (levelIds (specAdmissible false
          ((placed_engine eng name ai q p BUY t).getOrder eng.orders.length)
          (placed_engine eng name ai q p BUY t).asks))) 0 with hr | hr
    · -- the incoming closed inside the walk
      obtain ⟨hq0, ho0⟩ := c3 hr
      rw [hfg, hro, phases_closed_buy
        (run_levels (placed_engine eng name ai q p BUY t) eng.orders.length false
          (placed_engine eng name ai q p BUY t).asks) eng.orders.length
        (by rw [hdr, hdE]; decide) ho0
        (by rw [hty2, htE]; exact ht2)
        (Or.inl (by omega))]
      refine ⟨⟨rfl, ho0, hq0, ?_, ?_, ?_⟩, ?_⟩
      · show orderTypeString ((run_levels (placed_engine eng name ai q p BUY t)
            eng.orders.length false (placed_engine eng name ai q p BUY t).asks).getOrder
            eng.orders.length).orderType = "unknown"
        rw [hty2, htE, hunk]
      · intro hx
        have hx2 : eng.orders.length ∈ levelIds (run_levels (placed_engine eng name ai q p BUY t)
            eng.orders.length false (placed_engine eng name ai q p BUY t).asks).bids := hx
        rw [hGb] at hx2
        exact hib hx2
      · intro hx
        have hx2 := cleanup_closed_subset (run_levels (placed_engine eng name ai q p BUY t)
            eng.orders.length false (placed_engine eng name ai q p BUY t).asks).orders
          (run_levels (placed_engine eng name ai q p BUY t) eng.orders.length false
            (placed_engine eng name ai q p BUY t).asks).asks _ hx
        rw [hGa] at hx2
        exact hia hx2
      · intro hadm
        have hadmE : specAdmissible false ((placed_engine eng name ai q p BUY t).getOrder
            eng.orders.length) (placed_engine eng name ai q p BUY t).asks = [] := by
          rw [hEnew, placed_asks]
          exact hadm
        rw [hadmE] at hr
        simp only [levelIds, remainingQty] at hr
        omega
    · -- the incoming survives the walk and is discarded by rest_or_close
      obtain ⟨hq1, ho1⟩ := c2 hr
      obtain ⟨hf1, hf2, hf3⟩ := phases_discard_fields
        (run_levels (placed_engine eng name ai q p BUY t) eng.orders.length false
          (placed_engine eng name ai q p BUY t).asks) eng.orders.length
        (by rw [c1, crossFold_orders_length]; exact hlenE) ho1
        (by rw [hty2, htE]; exact ht2)
        (by rw [hty2, htE]; exact ht1)
      rw [hfg, hro]
      refine ⟨⟨rfl, ?_, ?_, ?_, ?_, ?_⟩, ?_⟩
      · rw [hf1]
      · rw [hf1]
      · rw [hf1]
        show orderTypeString ((run_levels (placed_engine eng name ai q p BUY t)
            eng.orders.length false (placed_engine eng name ai q p BUY t).asks).getOrder
            eng.orders.length).orderType = "unknown"
        rw [hty2, htE, hunk]
      · intro hx
        have hx2 := hf2 _ hx
        rw [hGb] at hx2
        exact hib hx2
      · intro hx
        have hx2 := hf3 _ hx
        rw [hGa] at hx2
        exact hia hx2
      · intro hadm
        have hadmE : specAdmissible false ((placed_engine eng name ai q p BUY t).getOrder
            eng.orders.length) (placed_engine eng name ai q p BUY t).asks = [] := by
          rw [hEnew, placed_asks]
          exact hadm
        rw [hadmE] at hq1
        simp only [levelIds, remainingQty] at hq1
        rw [hf1]
        show ((run_levels (placed_engine eng name ai q p BUY t) eng.orders.length false
            (placed_engine eng name ai q p BUY t).asks).getOrder
            eng.orders.length).totalFilled = 0
        omega
  · -- incoming SELL walks the bids
    simp only [unknown_type_post]
    rw [execute_order_accepted eng name ai q p SELL t hcap hacc
      (by
        intro h
        rcases h with h | h | h
        · omega
        · omega
        · exact h.1 rfl)]
    have hEnew := placed_getOrder_new eng name ai q p SELL t
    have hqE : ((placed_engine eng name ai q p SELL t).getOrder eng.orders.length).qty = q := by
      rw [hEnew]; rfl
    have hoE : ((placed_engine eng name ai q p SELL t).getOrder eng.orders.length).isOpen = true := by
      rw [hEnew]; rfl
    have htE : ((placed_engine eng name ai q p SELL t).getOrder eng.orders.length).orderType = t := by
      rw [hEnew]; rfl
    have hdE : ((placed_engine eng name ai q p SELL t).getOrder eng.orders.length).direction = SELL := by
      rw [hEnew]; rfl
    have htfE : ((placed_engine eng name ai q p SELL t).getOrder eng.orders.length).totalFilled = 0 := by
      rw [hEnew]; rfl
    have hfg : fok_gate (placed_engine eng name ai q p SELL t) eng.orders.length =
        run_order (placed_engine eng name ai q p SELL t) eng.orders.length := by
      simp only [fok_gate]
      rw [if_pos (by rw [htE]; exact ht3)]
    have hro : run_order (placed_engine eng name ai q p SELL t) eng.orders.length =
        run_levels (placed_engine eng name ai q p SELL t) eng.orders.length true
          (placed_engine eng name ai q p SELL t).bids := by
      unfold run_order
      rw [if_pos hdE]
    have hlenE : eng.orders.length < (placed_engine eng name ai q p SELL t).orders.length := by
      rw [placed_length]; omega
    have hnotinE : eng.orders.length ∉ levelIds (placed_engine eng name ai q p SELL t).bids := by
      rw [placed_bids]; exact hib
    have hnodE : (levelIds (placed_engine eng name ai q p SELL t).bids).Nodup := by
      rw [placed_bids]; exact hnb
    have hposE := placed_qty_nonneg eng name ai q p SELL t (by omega) hqty
    obtain ⟨c1, c2, c3⟩ := run_levels_spec (placed_engine eng name ai q p SELL t).orders
      eng.orders.length true (placed_engine eng name ai q p SELL t).bids
      (placed_engine eng name ai q p SELL t) hnotinE hnodE (fun j _ => rfl) hlenE hoE
      (by omega) hposE
    obtain ⟨hpr, hty2, hdr, horig, hsum2⟩ := crossFold_incoming_fields eng.orders.length
      (truncateByQty (placed_engine eng name ai q p SELL t).orders
        ((placed_engine eng name ai q p SELL t).getOrder eng.orders.length).qty
        (levelIds (specAdmissible true
          ((placed_engine eng name ai q p SELL t).getOrder eng.orders.length)
          (placed_engine eng name ai q p SELL t).bids)))
      (placed_engine eng name ai q p SELL t) hlenE
    rw [← c1] at hpr hty2 hdr horig hsum2
    have hGb : (run_levels (placed_engine eng name ai q p SELL t) eng.orders.length true
        (placed_engine eng name ai q p SELL t).bids).bids = eng.bids := by
      rw [c1, crossFold_bids, placed_bids]
    have hGa : (run_levels (placed_engine eng name ai q p SELL t) eng.orders.length true
        (placed_engine eng name ai q p SELL t).bids).asks = eng.asks := by
      rw [c1, crossFold_asks, placed_asks]
    have hunk : orderTypeString t = "unknown" := by
      unfold orderTypeString
      rw [if_neg ht1, if_neg ht2, if_neg ht4, if_neg ht3]
    rcases le_or_lt (remainingQty (placed_engine eng name ai q p SELL t).orders
        ((placed_engine eng name ai q p SELL t).getOrder eng.orders.length).qty
        (levelIds (specAdmissible true
          ((placed_engine eng name ai q p SELL t).getOrder eng.orders.length)
          (placed_engine eng name ai q p SELL t).bids))) 0 with hr | hr
    · obtain ⟨hq0, ho0⟩ := c3 hr
      rw [hfg, hro, phases_closed_sell
        (run_levels (placed_engine eng name ai q p SELL t) eng.orders.length true
          (placed_engine eng name ai q p SELL t).bids) eng.orders.length
        (by rw [hdr, hdE]) ho0
        (by rw [hty2, htE]; exact ht2)
        (Or.inl (by omega))]
      refine ⟨⟨rfl, ho0, hq0, ?_, ?_, ?_⟩, ?_⟩
      · show orderTypeString ((run_levels (placed_engine eng name ai q p SELL t)
            eng.orders.length true (placed_engine eng name ai q p SELL t).bids).getOrder
            eng.orders.length).orderType = "unknown"
        rw [hty2, htE, hunk]
      · intro hx
        have hx2 := cleanup_closed_subset (run_levels (placed_engine eng name ai q p SELL t)
            eng.orders.length true (placed_engine eng name ai q p SELL t).bids).orders
          (run_levels (placed_engine eng name ai q p SELL t) eng.orders.length true
            (placed_engine eng name ai q p SELL t).bids).bids _ hx
        rw [hGb] at hx2
        exact hib hx2
      · intro hx
        have hx2 : eng.orders.length ∈ levelIds (run_levels (placed_engine eng name ai q p SELL t)
            eng.orders.length true (placed_engine eng name ai q p SELL t).bids).asks := hx
        rw [hGa] at hx2
        exact hia hx2
      · intro hadm
        have hadmE : specAdmissible true ((placed_engine eng name ai q p SELL t).getOrder
            eng.orders.length) (placed_engine eng name ai q p SELL t).bids = [] := by
          rw [hEnew, placed_bids]
          exact hadm
        rw [hadmE] at hr
        simp only [levelIds, remainingQty] at hr
        omega
    · obtain ⟨hq1, ho1⟩ := c2 hr
      obtain ⟨hf1, hf2, hf3⟩ := phases_discard_fields
        (run_levels (placed_engine eng name ai q p SELL t) eng.orders.length true
          (placed_engine eng name ai q p SELL t).bids) eng.orders.length
        (by rw [c1, crossFold_orders_length]; exact hlenE) ho1
        (by rw [hty2, htE]; exact ht2)
        (by rw [hty2, htE]; exact ht1)
      rw [hfg, hro]
      refine ⟨⟨rfl, ?_, ?_, ?_, ?_, ?_⟩, ?_⟩
      · rw [hf1]
      · rw [hf1]
      · rw [hf1]
        show orderTypeString ((run_levels (placed_engine eng name ai q p SELL t)
            eng.orders.length true (placed_engine eng name ai q p SELL t).bids).getOrder
            eng.orders.length).orderType = "unknown"
        rw [hty2, htE, hunk]
      · intro hx
        have hx2 := hf2 _ hx
        rw [hGb] at hx2
        exact hib hx2
      · intro hx
        have hx2 := hf3 _ hx
        rw [hGa] at hx2
        exact hia hx2
      · intro hadm
        have hadmE : specAdmissible true ((placed_engine eng name ai q p SELL t).getOrder
            eng.orders.length) (placed_engine eng name ai q p SELL t).bids = [] := by
          rw [hEnew, placed_bids]
          exact hadm
        rw [hadmE] at hq1
        simp only [levelIds, remainingQty] at hq1
        rw [hf1]
        show ((run_levels (placed_engine eng name ai q p SELL t) eng.orders.length true
            (placed_engine eng name ai q p SELL t).bids).getOrder
            eng.orders.length).totalFilled = 0
        omega

theorem claim_C10_witness :
    unknown_type_post engRunW "D" 3 10 4000 1 7 ∧
    (specAdmissible (decide ((1 : Int) = SELL)) (new_order engRunW 3 10 4000 1 7)
        (if (1 : Int) = SELL then engRunW.bids else engRunW.asks) = [] →
      ((execute_order engRunW "D" 3 10 4000 1 7).1.getOrder engRunW.orders.length).totalFilled = 0) :=
  claim_C10_unknown_type engRunW "D" 3 10 4000 1 7 (by decide) (by decide) (by decide)
    (by decide) (by decide) (Or.inl rfl) (by decide)

theorem find_level_buy_mem (p : Int) (ls : List Level) (lvl : Level)
    (hf : find_level_buy p ls = some lvl) : ∀ x ∈ lvl.orderIds, x ∈ levelIds ls := by
  induction ls with
  | nil => simp [find_level_buy] at hf
  | cons a rest ih =>
    simp only [find_level_buy] at hf
    by_cases h1 : a.price > p
    · rw [if_pos h1] at hf
      intro x hx
      exact List.mem_append_right _ (ih hf x hx)
    · rw [if_neg h1] at hf
      by_cases h2 : a.price = p
      · rw [if_pos h2] at hf
        cases hf
        intro x hx
        exact List.mem_append_left _ hx
      · rw [if_neg h2] at hf
        cases hf

theorem find_level_sell_mem (p : Int) (ls : List Level) (lvl : Level)
    (hf : find_level_sell p ls = some lvl) : ∀ x ∈ lvl.orderIds, x ∈ levelIds ls := by
  induction ls with
  | nil => simp [find_level_sell] at hf
  | cons a rest ih =>
    simp only [find_level_sell] at hf
    by_cases h1 : a.price < p
    · rw [if_pos h1] at hf
      intro x hx
      exact List.mem_append_right _ (ih hf x hx)
    · rw [if_neg h1] at hf
      by_cases h2 : a.price = p
      · rw [if_pos h2] at hf
        cases hf
        intro x hx
        exact List.mem_append_left _ hx
      · rw [if_neg h2] at hf
        cases hf

theorem remove_after_find_buy (p : Int) (id : Nat) (ls : List Level)
    (hnd : (levelIds ls).Nodup) (lvl : Level)
    (hf : find_level_buy p ls = some lvl) (hmem : id ∈ lvl.orderIds) :
    id ∉ levelIds (remove_id_from_levels p id ls) := by
  induction ls with
  | nil => simp [find_level_buy] at hf
  | cons a rest ih =>
    have hnd3 := List.nodup_append.mp (show (a.orderIds ++ levelIds rest).Nodup from hnd)
    simp only [find_level_buy] at hf
    by_cases h1 : a.price > p
    · rw [if_pos h1] at hf
      have hap : ¬(a.price = p) := by omega
      simp only [remove_id_from_levels, if_neg hap, levelIds]
      intro hx
      rcases List.mem_append.mp hx with hx | hx
      · exact hnd3.2.2 hx (find_level_buy_mem p rest lvl hf id hmem)
      · exact ih hnd3.2.1 hf hx
    · rw [if_neg h1] at hf
      by_cases h2 : a.price = p
      · rw [if_pos h2] at hf
        cases hf
        simp only [remove_id_from_levels, if_pos h2]
        cases herase : lvl.orderIds.erase id with
        | nil =>
          intro hx
          exact hnd3.2.2 hmem hx
        | cons x xs =>
          simp only [levelIds]
          intro hx
          rcases List.mem_append.mp hx with hx | hx
          · have hne : id ∉ lvl.orderIds.erase id := hnd3.1.not_mem_erase
            rw [herase] at hne
            exact hne hx
          · exact hnd3.2.2 hmem hx
      · rw [if_neg h2] at hf
        cases hf

theorem remove_after_find_sell (p : Int) (id : Nat) (ls : List Level)
    (hnd : (levelIds ls).Nodup) (lvl : Level)
    (hf : find_level_sell p ls = some lvl) (hmem : id ∈ lvl.orderIds) :
    id ∉ levelIds (remove_id_from_levels p id ls) := by
  induction ls with
  | nil => simp [find_level_sell] at hf
  | cons a rest ih =>
    have hnd3 := List.nodup_append.mp (show (a.orderIds ++ levelIds rest).Nodup from hnd)
    simp only [find_level_sell] at hf
    by_cases h1 : a.price < p
    · rw [if_pos h1] at hf
      have hap : ¬(a.price = p) := by omega
      simp only [remove_id_from_levels, if_neg hap, levelIds]
      intro hx
      rcases List.mem_append.mp hx with hx | hx
      · exact hnd3.2.2 hx (find_level_sell_mem p rest lvl hf id hmem)
      · exact ih hnd3.2.1 hf hx
    · rw [if_neg h1] at hf
      by_cases h2 : a.price = p
      · rw [if_pos h2] at hf
        cases hf
        simp only [remove_id_from_levels, if_pos h2]
        cases herase : lvl.orderIds.erase id with
        | nil =>
          intro hx
          exact hnd3.2.2 hmem hx
        | cons x xs =>
          simp only [levelIds]
          intro hx
          rcases List.mem_append.mp hx with hx | hx
          · have hne : id ∉ lvl.orderIds.erase id := hnd3.1.not_mem_erase
            rw [herase] at hne
            exact hne hx
          · exact hnd3.2.2 hmem hx
      · rw [if_neg h2] at hf
        cases hf

theorem remake_quoteTime (eng : Engine) :
    (remake_most_of_quote eng).quote.quoteTime = eng.time := rfl

theorem ticker_message_quote (eng : Engine) :
    (create_ticker_message eng).quote = eng.quote := rfl

theorem resting_id_lt (eng : Engine) (id : Nat) (h : is_resting eng id = true) :
    id < eng.orders.length := by
  by_contra hc
  have hout : eng.getOrder id = defaultOrder := ordGet_out eng.orders id (by omega)
  unfold is_resting at h
  rw [hout] at h
  simp [defaultOrder, LIMIT] at h

/-- C7: cancel by id is a silent no-op unless the order is a LIMIT order
currently resting on the book (found via its price and side); repeating a
cancel of a non-resting order therefore echoes the identical order record.
A successful cancel closes the order (`open = false`, `qty = 0`), bumps the
ticker count by one, refreshes the quote from the clock, and — when no order
id is queued twice on a side — unlinks the order so that it is no longer
resting afterwards. -/
theorem claim_C7_cancel (eng : Engine) (id : Nat) :
    (is_resting eng id = false →
      cancel_order_by_id eng id = eng ∧
      (cancel_order_by_id (cancel_order_by_id eng id) id).getOrder id =
        (cancel_order_by_id eng id).getOrder id) ∧
    (is_resting eng id = true →
      ((cancel_order_by_id eng id).getOrder id).isOpen = false ∧
      ((cancel_order_by_id eng id).getOrder id).qty = 0 ∧
      (cancel_order_by_id eng id).tickers = eng.tickers + 1 ∧
      (cancel_order_by_id eng id).quote.quoteTime = eng.time ∧
      ((levelIds eng.bids).Nodup → (levelIds eng.asks).Nodup →
        is_resting (cancel_order_by_id eng id) id = false)) := by
  constructor
  · intro hrest
    have hnoop : cancel_order_by_id eng id = eng := by
      unfold cancel_order_by_id
      by_cases hlim : (eng.getOrder id).orderType = LIMIT
      · rw [if_neg (fun h => h hlim)]
        rcases hfind : find_level eng (eng.getOrder id).price (eng.getOrder id).direction
          with _ | lvl
        · simp only [hfind]
        · simp only [hfind]
          have hnm : id ∉ lvl.orderIds := by
            unfold is_resting at hrest
            rw [hfind] at hrest
            simp [hlim] at hrest
            exact hrest
          rw [if_neg hnm]
      · rw [if_pos hlim]
    exact ⟨hnoop, by rw [hnoop, hnoop]⟩
  · intro hrest
    have hidlt : id < eng.orders.length := resting_id_lt eng id hrest
    have hrest2 := hrest
    unfold is_resting at hrest2
    simp only [Bool.and_eq_true, decide_eq_true_eq] at hrest2
    have hlim : (eng.getOrder id).orderType = LIMIT := hrest2.1
    rcases hfind : find_level eng (eng.getOrder id).price (eng.getOrder id).direction
      with _ | lvl
    · exfalso
      have h2 := hrest2.2
      rw [hfind] at h2
      simp at h2
    · have hmem : id ∈ lvl.orderIds := by
        have h2 := hrest2.2
        rw [hfind] at h2
        simp at h2
        exact h2
      by_cases hdir : (eng.getOrder id).direction = BUY
      · have hcancel : cancel_order_by_id eng id =
            create_ticker_message (remake_most_of_quote
              { eng.setOrder id { eng.getOrder id with isOpen := false, qty := 0 } with
                bids := remove_id_from_levels (eng.getOrder id).price id eng.bids }) := by
          unfold cancel_order_by_id
          rw [if_neg (fun h => h hlim)]
          simp only [hfind]
          rw [if_pos hmem, if_pos hdir]
          rfl
        have hget : ((cancel_order_by_id eng id).getOrder id) =
            { eng.getOrder id with isOpen := false, qty := 0 } := by
          rw [hcancel, ticker_message_getOrder, remake_getOrder]
          exact setOrder_getOrder_self eng id _ hidlt
        refine ⟨by rw [hget], by rw [hget], by rw [hcancel]; rfl, by rw [hcancel]; rfl, ?_⟩
        intro hndb _
        unfold is_resting
        have hgp : ((cancel_order_by_id eng id).getOrder id).price = (eng.getOrder id).price := by
          rw [hget]
        have hgd : ((cancel_order_by_id eng id).getOrder id).direction = BUY := by
          rw [hget]; exact hdir
        rcases hf2 : find_level (cancel_order_by_id eng id)
            ((cancel_order_by_id eng id).getOrder id).price
            ((cancel_order_by_id eng id).getOrder id).direction with _ | lvl2
        · simp
        · unfold find_level at hf2
          rw [hgd, if_pos rfl, hgp] at hf2
          have hf3 : find_level_buy (eng.getOrder id).price
              (remove_id_from_levels (eng.getOrder id).price id eng.bids) = some lvl2 := by
            rw [← hf2]
            congr 1
            rw [hcancel, ticker_message_bids, remake_bids]
          have hnot := remove_after_find_buy (eng.getOrder id).price id eng.bids hndb lvl
            (by
              have := hfind
              unfold find_level at this
              rw [if_pos hdir] at this
              exact this) hmem
          have hsub := find_level_buy_mem (eng.getOrder id).price _ lvl2 hf3
          have hdmem : (decide (id ∈ lvl2.orderIds)) = false :=
            decide_eq_false (fun hmem2 => hnot (hsub id hmem2))
          simp [hdmem]
      · have hcancel : cancel_order_by_id eng id =
            create_ticker_message (remake_most_of_quote
              { eng.setOrder id { eng.getOrder id with isOpen := false, qty := 0 } with
                asks := remove_id_from_levels (eng.getOrder id).price id eng.asks }) := by
          unfold cancel_order_by_id
          rw [if_neg (fun h => h hlim)]
          simp only [hfind]
          rw [if_pos hmem, if_neg hdir]
          rfl
        have hget : ((cancel_order_by_id eng id).getOrder id) =
            { eng.getOrder id with isOpen := false, qty := 0 } := by
          rw [hcancel, ticker_message_getOrder, remake_getOrder]
          exact setOrder_getOrder_self eng id _ hidlt
        refine ⟨by rw [hget], by rw [hget], by rw [hcancel]; rfl, by rw [hcancel]; rfl, ?_⟩
        intro _ hnda
        unfold is_resting
        have hgp : ((cancel_order_by_id eng id).getOrder id).price = (eng.getOrder id).price := by
          rw [hget]
        have hgd : ((cancel_order_by_id eng id).getOrder id).direction =
            (eng.getOrder id).direction := by
          rw [hget]
        rcases hf2 : find_level (cancel_order_by_id eng id)
            ((cancel_order_by_id eng id).getOrder id).price
            ((cancel_order_by_id eng id).getOrder id).direction with _ | lvl2
        · simp
        · unfold find_level at hf2
          rw [hgd, if_neg hdir, hgp] at hf2
          have hf3 : find_level_sell (eng.getOrder id).price
              (remove_id_from_levels (eng.getOrder id).price id eng.asks) = some lvl2 := by
            rw [← hf2]
            congr 1
            rw [hcancel, ticker_message_asks, remake_asks]
          have hnot := remove_after_find_sell (eng.getOrder id).price id eng.asks hnda lvl
            (by
              have := hfind
              unfold find_level at this
              rw [if_neg hdir] at this
              exact this) hmem
          have hsub := find_level_sell_mem (eng.getOrder id).price _ lvl2 hf3
          have hdmem : (decide (id ∈ lvl2.orderIds)) = false :=
            decide_eq_false (fun hmem2 => hnot (hsub id hmem2))
          simp [hdmem]

theorem claim_C7_witness :
    (is_resting engCrossW 1 = false →
      cancel_order_by_id engCrossW 1 = engCrossW ∧
      (cancel_order_by_id (cancel_order_by_id engCrossW 1) 1).getOrder 1 =
        (cancel_order_by_id engCrossW 1).getOrder 1) ∧
    (is_resting engCrossW 1 = true →
      ((cancel_order_by_id engCrossW 1).getOrder 1).isOpen = false ∧
      ((cancel_order_by_id engCrossW 1).getOrder 1).qty = 0 ∧
      (cancel_order_by_id engCrossW 1).tickers = engCrossW.tickers + 1 ∧
      (cancel_order_by_id engCrossW 1).quote.quoteTime = engCrossW.time ∧
      ((levelIds engCrossW.bids).Nodup → (levelIds engCrossW.asks).Nodup →
        is_resting (cancel_order_by_id engCrossW 1) 1 = false)) :=
  claim_C7_cancel engCrossW 1

theorem order_inv_default : order_inv defaultOrder := by decide

theorem engine_inv_pointwise (eng : Engine) :
    engine_inv eng ↔ ∀ j, order_inv (eng.getOrder j) := by
  constructor
  · intro h j
    by_cases hj : j < eng.orders.length
    · exact h _ (ordGet_mem eng.orders j hj)
    · show order_inv (ordGet eng.orders j)
      rw [ordGet_out eng.orders j (by omega)]
      exact order_inv_default
  · intro h o ho
    rcases List.getElem_of_mem ho with ⟨i, hi, hgo⟩
    have hx := h i
    have hgd : eng.getOrder i = o := by
      show ordGet eng.orders i = o
      unfold ordGet
      rw [List.getD_eq_getElem eng.orders defaultOrder hi]
      exact hgo
    rwa [hgd] at hx

theorem order_inv_fill (o : Order) (m p : Int) (ts : Nat) (ho : order_inv o)
    (hm0 : 0 ≤ m) (hmq : m ≤ o.qty) : order_inv (fill_order_fields o m p ts) := by
  obtain ⟨h1, h2, h3, h4⟩ := ho
  refine ⟨?_, ?_, ?_, ?_⟩
  · rw [fill_qty]; omega
  · rw [fill_totalFilled]; omega
  · rw [fill_qty, fill_totalFilled, fill_originalQty]; omega
  · rw [fill_isOpen]
    split
    · intro hx
      exact absurd hx (by decide)
    · intro hx
      have h5 := h4 hx
      rename_i hne
      rw [fill_qty, fill_totalFilled, fill_originalQty]
      exact ⟨by omega, by omega⟩

theorem cross_preserves_inv (eng : Engine) (s i : Nat)
    (h : ∀ j, order_inv (eng.getOrder j)) :
    ∀ j, order_inv ((cross eng s i).getOrder j) := by
  intro j
  have hs := h s
  have hi := h i
  have hm0 : 0 ≤ crossQty eng s i := by
    rw [crossQty_eq_min]
    exact le_min hs.1 hi.1
  have hms : crossQty eng s i ≤ (eng.getOrder s).qty := by
    rw [crossQty_eq_min]; exact min_le_left _ _
  have hmi : crossQty eng s i ≤ (eng.getOrder i).qty := by
    rw [crossQty_eq_min]; exact min_le_right _ _
  show order_inv (ordGet (cross eng s i).orders j)
  rw [cross_orders, ordGet_set_cases, ordGet_set_cases]
  split
  · exact order_inv_fill _ _ _ _ hi hm0 hmi
  · split
    · exact order_inv_fill _ _ _ _ hs hm0 hms
    · exact h j

theorem run_level_preserves (iid : Nat) (ids : List Nat) :
    ∀ eng : Engine, (∀ j, order_inv (eng.getOrder j)) →
      ∀ j, order_inv ((run_level eng iid ids).1.getOrder j) := by
  induction ids with
  | nil => intro eng h j; exact h j
  | cons s rest ih =>
    intro eng h j
    unfold run_level
    simp only []
    split
    · exact cross_preserves_inv eng s iid h j
    · exact ih (cross eng s iid) (cross_preserves_inv eng s iid h) j

theorem run_levels_preserves (iid : Nat) (sellSide : Bool) (levels : List Level) :
    ∀ eng : Engine, (∀ j, order_inv (eng.getOrder j)) →
      ∀ j, order_inv ((run_levels eng iid sellSide levels).getOrder j) := by
  induction levels with
  | nil => intro eng h j; exact h j
  | cons lvl rest ih =>
    intro eng h j
    unfold run_levels
    simp only []
    by_cases hc : (if sellSide then lvl.price < (eng.getOrder iid).price
        else lvl.price > (eng.getOrder iid).price) ∧ (eng.getOrder iid).orderType ≠ MARKET
    · rw [if_pos hc]
      exact h j
    · rw [if_neg hc]
      rcases hrl : run_level eng iid lvl.orderIds with ⟨eng1, flag⟩
      have h1 : ∀ k, order_inv (eng1.getOrder k) := by
        intro k
        have hk := run_level_preserves iid lvl.orderIds eng h k
        rwa [hrl] at hk
      cases flag
      · exact ih eng1 h1 j
      · exact h1 j

theorem run_order_preserves (eng : Engine) (iid : Nat)
    (h : ∀ j, order_inv (eng.getOrder j)) :
    ∀ j, order_inv ((run_order eng iid).getOrder j) := by
  intro j
  unfold run_order
  split
  · exact run_levels_preserves iid true eng.bids eng h j
  · exact run_levels_preserves iid false eng.asks eng h j

theorem fok_gate_preserves (eng : Engine) (id : Nat)
    (h : ∀ j, order_inv (eng.getOrder j)) :
    ∀ j, order_inv ((fok_gate eng id).getOrder j) := by
  intro j
  unfold fok_gate
  simp only []
  split
  · exact run_order_preserves eng id h j
  · split
    · split
      · exact run_order_preserves eng id h j
      · exact h j
    · split
      · exact run_order_preserves eng id h j
      · exact h j

theorem cleanup_phase_preserves (eng : Engine) (id : Nat)
    (h : ∀ j, order_inv (eng.getOrder j)) :
    ∀ j, order_inv ((cleanup_phase eng id).getOrder j) := by
  intro j
  rw [cleanup_phase_getOrder]
  exact h j

theorem market_price_phase_preserves (eng : Engine) (id : Nat)
    (h : ∀ j, order_inv (eng.getOrder j)) :
    ∀ j, order_inv ((market_price_phase eng id).getOrder j) := by
  intro j
  unfold market_price_phase
  split
  · show order_inv (ordGet (eng.orders.set id { eng.getOrder id with price := 0 }) j)
    rw [ordGet_set_cases]
    split
    · exact h id
    · exact h j
  · exact h j

theorem order_inv_discard (o : Order) (ho : order_inv o) :
    order_inv { o with isOpen := false, qty := 0 } := by
  obtain ⟨h1, h2, h3, _⟩ := ho
  refine ⟨le_refl 0, h2, ?_, ?_⟩
  · show (0 : Int) + o.totalFilled ≤ o.originalQty
    omega
  · intro hop
    simp at hop

theorem rest_or_close_phase_preserves (eng : Engine) (id : Nat)
    (h : ∀ j, order_inv (eng.getOrder j)) :
    ∀ j, order_inv ((rest_or_close_phase eng id).getOrder j) := by
  intro j
  unfold rest_or_close_phase
  split
  · split
    · split
      · exact h j
      · exact h j
    · show order_inv
        (ordGet (eng.orders.set id { eng.getOrder id with isOpen := false, qty := 0 }) j)
      rw [ordGet_set_cases]
      split
      · exact order_inv_discard _ (h id)
      · exact h j
  · exact h j

theorem order_inv_new (eng : Engine) (ai q p d t : Int) (hq : 1 ≤ q) :
    order_inv (new_order eng ai q p d t) := by
  refine ⟨?_, ?_, ?_, ?_⟩
  · show (0 : Int) ≤ q
    omega
  · show (0 : Int) ≤ 0
    omega
  · show q + 0 ≤ q
    omega
  · intro hx
    exact ⟨by show q + 0 = q; omega, hq⟩

theorem placed_preserves (eng : Engine) (n : String) (ai q p d t : Int) (hq : 1 ≤ q)
    (h : ∀ j, order_inv (eng.getOrder j)) :
    ∀ j, order_inv ((placed_engine eng n ai q p d t).getOrder j) := by
  intro j
  rcases lt_trichotomy j eng.orders.length with hj | hj | hj
  · rw [placed_getOrder_old eng n ai q p d t j hj]
    exact h j
  · subst hj
    rw [placed_getOrder_new]
    exact order_inv_new eng ai q p d t hq
  · show order_inv (ordGet (placed_engine eng n ai q p d t).orders j)
    rw [placed_orders, ordGet_append_gt _ _ _ hj]
    exact order_inv_default

/-- C8, amended: between commands every order satisfies the one-sided
accounting inequality `0 ≤ qty`, `0 ≤ totalFilled`,
`qty + totalFilled ≤ originalQty`, with equality (and `1 ≤ qty`) whenever
the order is still open: both `execute_order` and `cancel_order_by_id`
preserve this invariant over every order ever created. The claimed
unconditional equality `qty + totalFilled = originalQty` fails on the
discard paths (see the counterexample), which zero `qty` without touching
`totalFilled`. -/
theorem claim_C8_qty_invariant (eng : Engine) (name : String) (ai q p d t : Int) (id : Nat)
    (h : engine_inv eng) :
    engine_inv (execute_order eng name ai q p d t).1 ∧
      engine_inv (cancel_order_by_id eng id) := by
  have hp := (engine_inv_pointwise eng).mp h
  constructor
  · rcases Classical.em (eng.orders.length ≥ MAXORDERS) with hcap | hcap
    · unfold execute_order
      rw [if_pos hcap]
      exact h
    rcases Classical.em (ai ≥ MAXACCOUNTS) with hacc | hacc
    · unfold execute_order
      rw [if_neg hcap, if_pos hacc]
      exact h
    rcases Classical.em (p < 0 ∨ q < 1 ∨ (d ≠ SELL ∧ d ≠ BUY)) with hval | hval
    · unfold execute_order
      rw [if_neg hcap, if_neg hacc, if_pos hval]
      exact h
    · rw [execute_order_accepted eng name ai q p d t (by omega) (by omega) hval]
      have hq : 1 ≤ q := by omega
      rw [engine_inv_pointwise]
      intro j
      have s1 := placed_preserves eng name ai q p d t hq hp
      have s2 := fok_gate_preserves _ eng.orders.length s1
      have s3 := cleanup_phase_preserves _ eng.orders.length s2
      have s4 := market_price_phase_preserves _ eng.orders.length s3
      have s5 := rest_or_close_phase_preserves _ eng.orders.length s4
      rw [ticker_phase_getOrder]
      exact s5 j
  · rw [engine_inv_pointwise]
    intro j
    unfold cancel_order_by_id
    simp only []
    split
    · exact hp j
    · split
      · exact hp j
      · split
        · rw [ticker_message_getOrder, remake_getOrder]
          split
          · show order_inv
              (ordGet (eng.orders.set id { eng.getOrder id with isOpen := false, qty := 0 }) j)
            rw [ordGet_set_cases]
            split
            · exact order_inv_discard _ (hp id)
            · exact hp j
          · show order_inv
              (ordGet (eng.orders.set id { eng.getOrder id with isOpen := false, qty := 0 }) j)
            rw [ordGet_set_cases]
            split
            · exact order_inv_discard _ (hp id)
            · exact hp j
        · exact hp j

theorem claim_C8_witness :
    engine_inv engCrossW ∧
      engine_inv (execute_order engCrossW "C" 2 5 5000 BUY LIMIT).1 ∧
      engine_inv (cancel_order_by_id engCrossW 0) :=
  ⟨by decide,
   (claim_C8_qty_invariant engCrossW "C" 2 5 5000 BUY LIMIT 0 (by decide)).1,
   (claim_C8_qty_invariant engCrossW "C" 2 5 5000 BUY LIMIT 0 (by decide)).2⟩

/-- C8, counterexample to the claim as stated: the empty book satisfies the
claimed equality `qty + totalFilled = originalQty` vacuously, but after one
accepted IOC buy for 5 shares (which finds nothing to cross and has its
remainder discarded: `qty := 0` with `totalFilled` still 0 and
`originalQty` 5) the claimed equality is violated at the very next
observable snapshot. -/
theorem claim_C8_counterexample :
    claimed_qty_inv emptyEngine ∧
      ¬ claimed_qty_inv (execute_order emptyEngine "A" 0 5 100 BUY IOC).1 := by
  decide
